import Mathlib

/-!
# aegis-cli: a shallow embedding of the OTP engine and the master-key recovery

The Go sources embedded here are `otp/otp.go`, `otp/totp.go`, `otp/steam_otp.go`,
`otp/motp.go`, `otp/hotp.go`, `vault/vault.go`, `vault/decrypt.go` and the functions
`GetOTP` and `GetOTPs` of `avdu.go`.

Conventions of the embedding.

* A Go `[]byte` is a `List Nat` whose elements are bytes (`< 256`); every function that
  produces bytes reduces them modulo 256.
* A Go `string` is a Lean `String`; `[]byte(s)` is its UTF-8 encoding (`utf8Bytes`).  The
  strings reached by the program come out of `encoding/json`, which only yields valid
  UTF-8.
* Go `int` and `int64` are `Int`; the platform is taken to be 64-bit, as the Go
  toolchain's `int` is on every 64-bit target.
* A Go call ends in one of three ways: it returns a value, it returns a non-nil `error`,
  or the runtime panics.  `Res` keeps the three apart.
* The standard-library and `golang.org/x/crypto` functions the program calls (the four
  hash functions, HMAC, PBKDF2, scrypt, AES, GCM, `encoding/hex`, `encoding/base32`,
  `strconv`, `fmt`) are written out as executable definitions, so that the program can be
  evaluated on concrete inputs.
-/

namespace Aegis

/-! ## Outcomes of a Go call -/

/-- Runtime panics that the embedded code can raise. -/
inductive Panic where
  /-- Reading `s[i]` with `i` outside `0 .. len-1`. -/
  | indexOutOfRange (index len : Int)
  /-- Taking `s[0:hi]` with `hi` outside `0 .. len`. -/
  | sliceBounds (hi len : Int)
  /-- An integer division or remainder by zero. -/
  | divideByZero
  /-- The panic of `cipher.AEAD.Open` on a nonce that is not 12 bytes long. -/
  | gcmNonceLength
  deriving DecidableEq, Repr

/-- Values of Go's `error` interface that the embedded code can return. -/
inductive GoError where
  /-- The error `unsupported algo %q` of `getHash` and `getDigest`. -/
  | unsupportedAlgo (algo : String)
  /-- The error `unsupported otp type %q` of `GetOTP`. -/
  | unsupportedOtpType (ty : String)
  /-- The `base32.CorruptInputError` at the given offset. -/
  | base32Corrupt (offset : Nat)
  /-- The `hex.InvalidByteError` for the given byte. -/
  | hexInvalidByte (b : Nat)
  /-- The error `hex.ErrLength` (odd length hex string). -/
  | hexLength
  /-- The error `scrypt: N must be > 1 and a power of 2`. -/
  | scryptN
  /-- The error `scrypt: parameters are too large`. -/
  | scryptTooLarge
  /-- The `aes.KeySizeError` for the given key length. -/
  | aesKeySize (n : Nat)
  /-- The error `cipher: message authentication failed` of `Open`. -/
  | gcmAuthFailed
  /-- The error `no master key found` of `FindMasterKey`. -/
  | masterKeyNotFound
  deriving DecidableEq, Repr

/-- The three ways a Go call can end. -/
inductive Res (α : Type) where
  | ok (value : α)
  | error (e : GoError)
  | panic (p : Panic)
  deriving DecidableEq, Repr

/-- Sequencing of Go calls: an error or a panic ends the computation. -/
def Res.bind {α β : Type} (r : Res α) (f : α → Res β) : Res β :=
  match r with
  | Res.ok a => f a
  | Res.error e => Res.error e
  | Res.panic p => Res.panic p

instance : Monad Res where
  pure := Res.ok
  bind := Res.bind

/-! ## Words and byte strings -/

/-- Truncation to an unsigned 32-bit word. -/
def u32 (x : Nat) : Nat := x % 4294967296

/-- Truncation to an unsigned 64-bit word. -/
def u64 (x : Nat) : Nat := x % 18446744073709551616

/-- Rotation of a 32-bit word to the left (`bits.RotateLeft32`). -/
def rotl32 (x n : Nat) : Nat := u32 ((x <<< n) ||| (x >>> (32 - n)))

/-- Rotation of a 32-bit word to the right. -/
def rotr32 (x n : Nat) : Nat := u32 ((x >>> n) ||| (x <<< (32 - n)))

/-- Rotation of a 64-bit word to the right. -/
def rotr64 (x n : Nat) : Nat := u64 ((x >>> n) ||| (x <<< (64 - n)))

/-- Bitwise complement of a 32-bit word. -/
def not32 (x : Nat) : Nat := x ^^^ 4294967295

/-- Bitwise complement of a 64-bit word. -/
def not64 (x : Nat) : Nat := x ^^^ 18446744073709551615

/-- The `n` low bytes of `x`, least significant first. -/
def leBytes : Nat → Nat → List Nat
  | 0, _ => []
  | n + 1, x => x % 256 :: leBytes n (x / 256)

/-- The `n` low bytes of `x`, most significant first. -/
def beBytes (n x : Nat) : List Nat := (leBytes n x).reverse

/-- The number whose little-endian bytes are `bs`. -/
def leWord (bs : List Nat) : Nat := bs.foldr (fun b acc => b % 256 + 256 * acc) 0

/-- The number whose big-endian bytes are `bs`. -/
def beWord (bs : List Nat) : Nat := bs.foldl (fun acc b => 256 * acc + b % 256) 0

/-- Consecutive blocks of `n` elements; the last one may be shorter.  The first argument
bounds the number of blocks and is passed as the length of the list. -/
def blocksOf {α : Type} (n : Nat) : Nat → List α → List (List α)
  | 0, _ => []
  | _, [] => []
  | fuel + 1, b :: bs => (b :: bs).take n :: blocksOf n fuel ((b :: bs).drop n)

/-- Byte-wise exclusive or of two byte strings (up to the shorter one). -/
def xorBytes (a b : List Nat) : List Nat := List.zipWith (fun x y => (x ^^^ y) % 256) a b

/-- Merkle–Damgård padding: a `0x80` byte, zero bytes up to a block boundary less the
length field, and the bit length of the message in `lenSz` bytes. -/
def mdPad (lenBytes : Nat → List Nat) (blk lenSz : Nat) (msg : List Nat) : List Nat :=
  let n := msg.length
  let z := (blk - (n + 1 + lenSz) % blk) % blk
  msg ++ [128] ++ List.replicate z 0 ++ lenBytes (8 * n)

/-! ## `crypto/md5` -/

/-- The additive constants of MD5, `floor(2^32 * |sin (i+1)|)`. -/
def md5K : List Nat := [
  0xd76aa478, 0xe8c7b756, 0x242070db, 0xc1bdceee, 0xf57c0faf, 0x4787c62a, 0xa8304613, 0xfd469501,
  0x698098d8, 0x8b44f7af, 0xffff5bb1, 0x895cd7be, 0x6b901122, 0xfd987193, 0xa679438e, 0x49b40821,
  0xf61e2562, 0xc040b340, 0x265e5a51, 0xe9b6c7aa, 0xd62f105d, 0x02441453, 0xd8a1e681, 0xe7d3fbc8,
  0x21e1cde6, 0xc33707d6, 0xf4d50d87, 0x455a14ed, 0xa9e3e905, 0xfcefa3f8, 0x676f02d9, 0x8d2a4c8a,
  0xfffa3942, 0x8771f681, 0x6d9d6122, 0xfde5380c, 0xa4beea44, 0x4bdecfa9, 0xf6bb4b60, 0xbebfbc70,
  0x289b7ec6, 0xeaa127fa, 0xd4ef3085, 0x04881d05, 0xd9d4d039, 0xe6db99e5, 0x1fa27cf8, 0xc4ac5665,
  0xf4292244, 0x432aff97, 0xab9423a7, 0xfc93a039, 0x655b59c3, 0x8f0ccc92, 0xffeff47d, 0x85845dd1,
  0x6fa87e4f, 0xfe2ce6e0, 0xa3014314, 0x4e0811a1, 0xf7537e82, 0xbd3af235, 0x2ad7d2bb, 0xeb86d391]

/-- The per-step rotation amounts of MD5. -/
def md5S : List Nat := [
  7, 12, 17, 22, 7, 12, 17, 22, 7, 12, 17, 22, 7, 12, 17, 22,
  5, 9, 14, 20, 5, 9, 14, 20, 5, 9, 14, 20, 5, 9, 14, 20,
  4, 11, 16, 23, 4, 11, 16, 23, 4, 11, 16, 23, 4, 11, 16, 23,
  6, 10, 15, 21, 6, 10, 15, 21, 6, 10, 15, 21, 6, 10, 15, 21]

/-- The chaining value of MD5. -/
structure Md5State where
  a : Nat
  b : Nat
  c : Nat
  d : Nat

/-- One of the 64 steps of the MD5 compression function on message words `m`. -/
def md5Step (m : List Nat) (s : Md5State) (i : Nat) : Md5State :=
  let f := if i < 16 then (s.b &&& s.c) ||| (not32 s.b &&& s.d)
    else if i < 32 then (s.d &&& s.b) ||| (not32 s.d &&& s.c)
    else if i < 48 then s.b ^^^ s.c ^^^ s.d
    else s.c ^^^ (s.b ||| not32 s.d)
  let g := if i < 16 then i
    else if i < 32 then (5 * i + 1) % 16
    else if i < 48 then (3 * i + 5) % 16
    else (7 * i) % 16
  let x := u32 (s.a + f + md5K.getD i 0 + m.getD g 0)
  ⟨s.d, u32 (s.b + rotl32 x (md5S.getD i 0)), s.b, s.c⟩

/-- The MD5 compression function on one 64-byte block. -/
def md5Block (s : Md5State) (block : List Nat) : Md5State :=
  let m := (blocksOf 4 16 block).map leWord
  let t := (List.range 64).foldl (md5Step m) s
  ⟨u32 (s.a + t.a), u32 (s.b + t.b), u32 (s.c + t.c), u32 (s.d + t.d)⟩

/-- The MD5 digest of a message (`md5.New`, `Write`, `Sum(nil)`): 16 bytes. -/
def md5Sum (msg : List Nat) : List Nat :=
  let p := mdPad (leBytes 8) 64 8 msg
  let s := (blocksOf 64 p.length p).foldl md5Block ⟨0x67452301, 0xefcdab89, 0x98badcfe, 0x10325476⟩
  leBytes 4 s.a ++ leBytes 4 s.b ++ leBytes 4 s.c ++ leBytes 4 s.d

/-! ## `crypto/sha1` -/

/-- The chaining value of SHA-1. -/
structure Sha1State where
  a : Nat
  b : Nat
  c : Nat
  d : Nat
  e : Nat

/-- Extension of the message schedule by one word; the schedule is kept newest first.
`next` computes the new word from the words already present. -/
def extendSchedule (next : List Nat → Nat) : Nat → List Nat → List Nat
  | 0, w => w
  | n + 1, w => extendSchedule next n (next w :: w)

/-- The 80-word message schedule of SHA-1 for one block, oldest word first. -/
def sha1Schedule (block : List Nat) : List Nat :=
  let w := ((blocksOf 4 16 block).map beWord).reverse
  (extendSchedule
    (fun w => rotl32 (w.getD 2 0 ^^^ w.getD 7 0 ^^^ w.getD 13 0 ^^^ w.getD 15 0) 1) 64 w).reverse

/-- One of the 80 steps of the SHA-1 compression function. -/
def sha1Step (w : List Nat) (s : Sha1State) (i : Nat) : Sha1State :=
  let f := if i < 20 then (s.b &&& s.c) ||| (not32 s.b &&& s.d)
    else if i < 40 then s.b ^^^ s.c ^^^ s.d
    else if i < 60 then (s.b &&& s.c) ||| (s.b &&& s.d) ||| (s.c &&& s.d)
    else s.b ^^^ s.c ^^^ s.d
  let k := if i < 20 then 0x5a827999
    else if i < 40 then 0x6ed9eba1
    else if i < 60 then 0x8f1bbcdc
    else 0xca62c1d6
  ⟨u32 (rotl32 s.a 5 + f + s.e + k + w.getD i 0), s.a, rotl32 s.b 30, s.c, s.d⟩

/-- The SHA-1 compression function on one 64-byte block. -/
def sha1Block (s : Sha1State) (block : List Nat) : Sha1State :=
  let t := (List.range 80).foldl (sha1Step (sha1Schedule block)) s
  ⟨u32 (s.a + t.a), u32 (s.b + t.b), u32 (s.c + t.c), u32 (s.d + t.d), u32 (s.e + t.e)⟩

/-- The SHA-1 digest of a message: 20 bytes. -/
def sha1Sum (msg : List Nat) : List Nat :=
  let p := mdPad (beBytes 8) 64 8 msg
  let s := (blocksOf 64 p.length p).foldl sha1Block
    ⟨0x67452301, 0xefcdab89, 0x98badcfe, 0x10325476, 0xc3d2e1f0⟩
  beBytes 4 s.a ++ beBytes 4 s.b ++ beBytes 4 s.c ++ beBytes 4 s.d ++ beBytes 4 s.e

/-! ## `crypto/sha256` and `crypto/sha512` -/

/-- The chaining value of SHA-256 and of SHA-512. -/
structure Sha2State where
  a : Nat
  b : Nat
  c : Nat
  d : Nat
  e : Nat
  f : Nat
  g : Nat
  h : Nat

/-- The round constants of SHA-256. -/
def sha256K : List Nat := [
  0x428a2f98, 0x71374491, 0xb5c0fbcf, 0xe9b5dba5, 0x3956c25b, 0x59f111f1, 0x923f82a4, 0xab1c5ed5,
  0xd807aa98, 0x12835b01, 0x243185be, 0x550c7dc3, 0x72be5d74, 0x80deb1fe, 0x9bdc06a7, 0xc19bf174,
  0xe49b69c1, 0xefbe4786, 0x0fc19dc6, 0x240ca1cc, 0x2de92c6f, 0x4a7484aa, 0x5cb0a9dc, 0x76f988da,
  0x983e5152, 0xa831c66d, 0xb00327c8, 0xbf597fc7, 0xc6e00bf3, 0xd5a79147, 0x06ca6351, 0x14292967,
  0x27b70a85, 0x2e1b2138, 0x4d2c6dfc, 0x53380d13, 0x650a7354, 0x766a0abb, 0x81c2c92e, 0x92722c85,
  0xa2bfe8a1, 0xa81a664b, 0xc24b8b70, 0xc76c51a3, 0xd192e819, 0xd6990624, 0xf40e3585, 0x106aa070,
  0x19a4c116, 0x1e376c08, 0x2748774c, 0x34b0bcb5, 0x391c0cb3, 0x4ed8aa4a, 0x5b9cca4f, 0x682e6ff3,
  0x748f82ee, 0x78a5636f, 0x84c87814, 0x8cc70208, 0x90befffa, 0xa4506ceb, 0xbef9a3f7, 0xc67178f2]

/-- The 64-word message schedule of SHA-256 for one block, oldest word first. -/
def sha256Schedule (block : List Nat) : List Nat :=
  let w := ((blocksOf 4 16 block).map beWord).reverse
  (extendSchedule
    (fun w =>
      let x := w.getD 14 0
      let y := w.getD 1 0
      let s0 := rotr32 x 7 ^^^ rotr32 x 18 ^^^ (x >>> 3)
      let s1 := rotr32 y 17 ^^^ rotr32 y 19 ^^^ (y >>> 10)
      u32 (w.getD 15 0 + s0 + w.getD 6 0 + s1)) 48 w).reverse

/-- One of the 64 rounds of the SHA-256 compression function. -/
def sha256Step (w : List Nat) (s : Sha2State) (i : Nat) : Sha2State :=
  let s1 := rotr32 s.e 6 ^^^ rotr32 s.e 11 ^^^ rotr32 s.e 25
  let ch := (s.e &&& s.f) ^^^ (not32 s.e &&& s.g)
  let t1 := u32 (s.h + s1 + ch + sha256K.getD i 0 + w.getD i 0)
  let s0 := rotr32 s.a 2 ^^^ rotr32 s.a 13 ^^^ rotr32 s.a 22
  let maj := (s.a &&& s.b) ^^^ (s.a &&& s.c) ^^^ (s.b &&& s.c)
  let t2 := u32 (s0 + maj)
  ⟨u32 (t1 + t2), s.a, s.b, s.c, u32 (s.d + t1), s.e, s.f, s.g⟩

/-- The SHA-256 compression function on one 64-byte block. -/
def sha256Block (s : Sha2State) (block : List Nat) : Sha2State :=
  let t := (List.range 64).foldl (sha256Step (sha256Schedule block)) s
  ⟨u32 (s.a + t.a), u32 (s.b + t.b), u32 (s.c + t.c), u32 (s.d + t.d),
   u32 (s.e + t.e), u32 (s.f + t.f), u32 (s.g + t.g), u32 (s.h + t.h)⟩

/-- The SHA-256 digest of a message: 32 bytes. -/
def sha256Sum (msg : List Nat) : List Nat :=
  let p := mdPad (beBytes 8) 64 8 msg
  let s := (blocksOf 64 p.length p).foldl sha256Block
    ⟨0x6a09e667, 0xbb67ae85, 0x3c6ef372, 0xa54ff53a, 0x510e527f, 0x9b05688c, 0x1f83d9ab, 0x5be0cd19⟩
  beBytes 4 s.a ++ beBytes 4 s.b ++ beBytes 4 s.c ++ beBytes 4 s.d ++
    beBytes 4 s.e ++ beBytes 4 s.f ++ beBytes 4 s.g ++ beBytes 4 s.h

/-- The round constants of SHA-512. -/
def sha512K : List Nat := [
  0x428a2f98d728ae22, 0x7137449123ef65cd, 0xb5c0fbcfec4d3b2f, 0xe9b5dba58189dbbc,
  0x3956c25bf348b538, 0x59f111f1b605d019, 0x923f82a4af194f9b, 0xab1c5ed5da6d8118,
  0xd807aa98a3030242, 0x12835b0145706fbe, 0x243185be4ee4b28c, 0x550c7dc3d5ffb4e2,
  0x72be5d74f27b896f, 0x80deb1fe3b1696b1, 0x9bdc06a725c71235, 0xc19bf174cf692694,
  0xe49b69c19ef14ad2, 0xefbe4786384f25e3, 0x0fc19dc68b8cd5b5, 0x240ca1cc77ac9c65,
  0x2de92c6f592b0275, 0x4a7484aa6ea6e483, 0x5cb0a9dcbd41fbd4, 0x76f988da831153b5,
  0x983e5152ee66dfab, 0xa831c66d2db43210, 0xb00327c898fb213f, 0xbf597fc7beef0ee4,
  0xc6e00bf33da88fc2, 0xd5a79147930aa725, 0x06ca6351e003826f, 0x142929670a0e6e70,
  0x27b70a8546d22ffc, 0x2e1b21385c26c926, 0x4d2c6dfc5ac42aed, 0x53380d139d95b3df,
  0x650a73548baf63de, 0x766a0abb3c77b2a8, 0x81c2c92e47edaee6, 0x92722c851482353b,
  0xa2bfe8a14cf10364, 0xa81a664bbc423001, 0xc24b8b70d0f89791, 0xc76c51a30654be30,
  0xd192e819d6ef5218, 0xd69906245565a910, 0xf40e35855771202a, 0x106aa07032bbd1b8,
  0x19a4c116b8d2d0c8, 0x1e376c085141ab53, 0x2748774cdf8eeb99, 0x34b0bcb5e19b48a8,
  0x391c0cb3c5c95a63, 0x4ed8aa4ae3418acb, 0x5b9cca4f7763e373, 0x682e6ff3d6b2b8a3,
  0x748f82ee5defb2fc, 0x78a5636f43172f60, 0x84c87814a1f0ab72, 0x8cc702081a6439ec,
  0x90befffa23631e28, 0xa4506cebde82bde9, 0xbef9a3f7b2c67915, 0xc67178f2e372532b,
  0xca273eceea26619c, 0xd186b8c721c0c207, 0xeada7dd6cde0eb1e, 0xf57d4f7fee6ed178,
  0x06f067aa72176fba, 0x0a637dc5a2c898a6, 0x113f9804bef90dae, 0x1b710b35131c471b,
  0x28db77f523047d84, 0x32caab7b40c72493, 0x3c9ebe0a15c9bebc, 0x431d67c49c100d4c,
  0x4cc5d4becb3e42b6, 0x597f299cfc657e2a, 0x5fcb6fab3ad6faec, 0x6c44198c4a475817]

/-- The 80-word message schedule of SHA-512 for one 128-byte block, oldest word first. -/
def sha512Schedule (block : List Nat) : List Nat :=
  let w := ((blocksOf 8 16 block).map beWord).reverse
  (extendSchedule
    (fun w =>
      let x := w.getD 14 0
      let y := w.getD 1 0
      let s0 := rotr64 x 1 ^^^ rotr64 x 8 ^^^ (x >>> 7)
      let s1 := rotr64 y 19 ^^^ rotr64 y 61 ^^^ (y >>> 6)
      u64 (w.getD 15 0 + s0 + w.getD 6 0 + s1)) 64 w).reverse

/-- One of the 80 rounds of the SHA-512 compression function. -/
def sha512Step (w : List Nat) (s : Sha2State) (i : Nat) : Sha2State :=
  let s1 := rotr64 s.e 14 ^^^ rotr64 s.e 18 ^^^ rotr64 s.e 41
  let ch := (s.e &&& s.f) ^^^ (not64 s.e &&& s.g)
  let t1 := u64 (s.h + s1 + ch + sha512K.getD i 0 + w.getD i 0)
  let s0 := rotr64 s.a 28 ^^^ rotr64 s.a 34 ^^^ rotr64 s.a 39
  let maj := (s.a &&& s.b) ^^^ (s.a &&& s.c) ^^^ (s.b &&& s.c)
  let t2 := u64 (s0 + maj)
  ⟨u64 (t1 + t2), s.a, s.b, s.c, u64 (s.d + t1), s.e, s.f, s.g⟩

/-- The SHA-512 compression function on one 128-byte block. -/
def sha512Block (s : Sha2State) (block : List Nat) : Sha2State :=
  let t := (List.range 80).foldl (sha512Step (sha512Schedule block)) s
  ⟨u64 (s.a + t.a), u64 (s.b + t.b), u64 (s.c + t.c), u64 (s.d + t.d),
   u64 (s.e + t.e), u64 (s.f + t.f), u64 (s.g + t.g), u64 (s.h + t.h)⟩

/-- The SHA-512 digest of a message: 64 bytes. -/
def sha512Sum (msg : List Nat) : List Nat :=
  let p := mdPad (beBytes 16) 128 16 msg
  let s := (blocksOf 128 p.length p).foldl sha512Block
    ⟨0x6a09e667f3bcc908, 0xbb67ae8584caa73b, 0x3c6ef372fe94f82b, 0xa54ff53a5f1d36f1,
     0x510e527fade682d1, 0x9b05688c2b3e6c1f, 0x1f83d9abfb41bd6b, 0x5be0cd19137e2179⟩
  beBytes 8 s.a ++ beBytes 8 s.b ++ beBytes 8 s.c ++ beBytes 8 s.d ++
    beBytes 8 s.e ++ beBytes 8 s.f ++ beBytes 8 s.g ++ beBytes 8 s.h

/-! ## `crypto/hmac` -/

/-- The value of `hmac.New(h, key)` after `Write(msg)` and `Sum(nil)`, for a hash `h` with
block size `blk`: keys longer than a block are hashed first, shorter ones are padded
with zero bytes. -/
def hmacSum (h : List Nat → List Nat) (blk : Nat) (key msg : List Nat) : List Nat :=
  let k := if key.length > blk then h key else key
  let k := k ++ List.replicate (blk - k.length) 0
  h (k.map (fun b => (b ^^^ 0x5c) % 256) ++ h (k.map (fun b => (b ^^^ 0x36) % 256) ++ msg))

/-! ## Strings: `[]byte(s)`, `encoding/hex`, `encoding/base32`, `strconv`, `fmt` -/

/-- The UTF-8 encoding of one character. -/
def utf8Char (c : Char) : List Nat :=
  let n := c.toNat
  if n < 0x80 then [n]
  else if n < 0x800 then [0xc0 + n / 64, 0x80 + n % 64]
  else if n < 0x10000 then [0xe0 + n / 4096, 0x80 + n / 64 % 64, 0x80 + n % 64]
  else [0xf0 + n / 262144, 0x80 + n / 4096 % 64, 0x80 + n / 64 % 64, 0x80 + n % 64]

/-- The conversion `[]byte(s)`. -/
def utf8Bytes (s : String) : List Nat := s.toList.flatMap utf8Char

/-- The table `hextable` of `encoding/hex`. -/
def hextable : List Char := "0123456789abcdef".toList

/-- The function `hex.EncodeToString`: two lowercase hex characters per byte. -/
def hexEncodeToString (src : List Nat) : String :=
  String.mk (src.flatMap fun v => [hextable.getD (v / 16 % 16) '0', hextable.getD (v % 16) '0'])

/-- The table `reverseHexTable` of `encoding/hex`: the value of a hex character, upper or
lower case. -/
def fromHexChar (c : Nat) : Option Nat :=
  if 48 ≤ c ∧ c ≤ 57 then some (c - 48)
  else if 97 ≤ c ∧ c ≤ 102 then some (c - 97 + 10)
  else if 65 ≤ c ∧ c ≤ 70 then some (c - 65 + 10)
  else none

/-- The function `hex.Decode` on the bytes of the source string: pairs are decoded from the
left, the first invalid byte is reported, and an odd length is reported last. -/
def hexDecode : List Nat → Res (List Nat)
  | [] => Res.ok []
  | [p] =>
    match fromHexChar p with
    | none => Res.error (GoError.hexInvalidByte p)
    | some _ => Res.error GoError.hexLength
  | p :: q :: rest =>
    match fromHexChar p with
    | none => Res.error (GoError.hexInvalidByte p)
    | some a =>
      match fromHexChar q with
      | none => Res.error (GoError.hexInvalidByte q)
      | some b =>
        match hexDecode rest with
        | Res.ok bs => Res.ok ((a * 16 + b) :: bs)
        | Res.error e => Res.error e
        | Res.panic x => Res.panic x

/-- The function `hex.DecodeString`. -/
def hexDecodeString (s : String) : Res (List Nat) := hexDecode (utf8Bytes s)

/-- The decode map of `base32.StdEncoding`, alphabet `A`–`Z`, `2`–`7`. -/
def base32Value (c : Nat) : Option Nat :=
  if 65 ≤ c ∧ c ≤ 90 then some (c - 65)
  else if 50 ≤ c ∧ c ≤ 55 then some (c - 50 + 26)
  else none

/-- The 5-bit values of the characters of a base32 text; the first character outside the
alphabet gives `CorruptInputError` at its offset. -/
def base32Values : Nat → List Nat → Res (List Nat)
  | _, [] => Res.ok []
  | i, c :: cs =>
    match base32Value c with
    | none => Res.error (GoError.base32Corrupt i)
    | some v =>
      match base32Values (i + 1) cs with
      | Res.ok vs => Res.ok (v :: vs)
      | Res.error e => Res.error e
      | Res.panic x => Res.panic x

/-- The bytes of one quantum of up to eight 5-bit values, as packed by the `switch dlen` of
`base32.(*Encoding).decode`: 8, 7, 5, 4 and 2 values give 5, 4, 3, 2 and 1 bytes, any
other count gives none. -/
def base32Quantum (d : List Nat) : List Nat :=
  let v := fun i => d.getD i 0
  let n := match d.length with
    | 8 => 5
    | 7 => 4
    | 5 => 3
    | 4 => 2
    | 2 => 1
    | _ => 0
  [(v 0 <<< 3 ||| v 1 >>> 2) % 256,
   (v 1 <<< 6 ||| v 2 <<< 1 ||| v 3 >>> 4) % 256,
   (v 3 <<< 4 ||| v 4 >>> 1) % 256,
   (v 4 <<< 7 ||| v 5 <<< 2 ||| v 6 >>> 3) % 256,
   (v 6 <<< 5 ||| v 7) % 256].take n

/-- The call `base32.StdEncoding.WithPadding(base32.NoPadding).DecodeString(s)`: carriage
returns and line feeds are dropped, then the text is decoded quantum by quantum. -/
def base32DecodeString (s : String) : Res (List Nat) :=
  let src := (utf8Bytes s).filter fun c => c ≠ 13 ∧ c ≠ 10
  match base32Values 0 src with
  | Res.ok vs => Res.ok ((blocksOf 8 vs.length vs).flatMap base32Quantum)
  | Res.error e => Res.error e
  | Res.panic x => Res.panic x

/-- The decimal digit character of `u % 10`. -/
def digitChar (u : Nat) : Char := Char.ofNat (48 + u % 10)

/-- The digit loop of `fmt` and `strconv`: the decimal digits of `u` are written right to
left in front of `acc`.  The first argument bounds the number of digits and is passed as
`u` itself. -/
def decimalDigits : Nat → Nat → List Char → List Char
  | 0, u, acc => digitChar u :: acc
  | fuel + 1, u, acc =>
    if 10 ≤ u then decimalDigits fuel (u / 10) (digitChar u :: acc) else digitChar u :: acc

/-- The function `strconv.FormatInt(i, 10)`. -/
def formatInt (i : Int) : String :=
  if i < 0 then String.mk ('-' :: decimalDigits i.natAbs i.natAbs [])
  else String.mk (decimalDigits i.natAbs i.natAbs [])

/-- The call `fmt.Sprintf("%0<width>d", n)` as carried out by `fmtInteger`: the digits of
`|n|`, zeros in front up to the width (one less for a negative number) and the sign.
The model is exact for widths up to 1000000, the largest width `fmt` parses. -/
def sprintfZeroPad (width : Nat) (n : Int) : String :=
  let ds := decimalDigits n.natAbs n.natAbs []
  let prec := if n < 0 then width - 1 else width
  let padded := List.replicate (prec - ds.length) '0' ++ ds
  String.mk (if n < 0 then '-' :: padded else padded)

/-- Conversion to `int64` by wrapping. -/
def toInt64 (x : Int) : Int := (x + 9223372036854775808) % 18446744073709551616 - 9223372036854775808

/-- The indexing expression `s[i]` on a byte slice, with its bounds check. -/
def index (s : List Nat) (i : Int) : Res Nat :=
  if 0 ≤ i ∧ i < s.length then Res.ok (s.getD i.toNat 0)
  else Res.panic (Panic.indexOutOfRange i s.length)

/-! ## Package `otp`: `otp.go` -/

/-- The function `getHash`: HMAC of the 8-byte big-endian counter under the secret, with
the hash named by `algo`. -/
def getHash (secret : List Nat) (algo : String) (counter : Int) : Res (List Nat) :=
  let counterBytes := beBytes 8 (counter % 18446744073709551616).toNat
  if algo = "SHA1" then Res.ok (hmacSum sha1Sum 64 secret counterBytes)
  else if algo = "SHA256" then Res.ok (hmacSum sha256Sum 64 secret counterBytes)
  else if algo = "SHA512" then Res.ok (hmacSum sha512Sum 128 secret counterBytes)
  else if algo = "MD5" then Res.ok (hmacSum md5Sum 64 secret counterBytes)
  else Res.error (GoError.unsupportedAlgo algo)

/-- The function `getDigest`: the plain hash of the data, with the hash named by `algo`. -/
def getDigest (algo : String) (toDigest : List Nat) : Res (List Nat) :=
  if algo = "SHA1" then Res.ok (sha1Sum toDigest)
  else if algo = "SHA256" then Res.ok (sha256Sum toDigest)
  else if algo = "SHA512" then Res.ok (sha512Sum toDigest)
  else if algo = "MD5" then Res.ok (md5Sum toDigest)
  else Res.error (GoError.unsupportedAlgo algo)

/-! ## Package `otp`: `totp.go` -/

/-- The struct `TOTP`. -/
structure TOTP where
  code : Int
  digits : Int
  deriving DecidableEq, Repr

/-- The conversion `int64(math.Pow10(n))`.  Powers of ten up to `10^18` are exact; a
negative exponent gives a value below one, which truncates to zero.  From `10^19` on the
value does not fit `int64` and Go leaves the conversion to the implementation; the model
takes the result of amd64, the smallest `int64`. -/
def pow10Int64 (n : Int) : Int :=
  if n < 0 then 0
  else if n ≤ 18 then (10 : Int) ^ n.toNat
  else -9223372036854775808

/-- The method `TOTP.String`: the code modulo `10^digits`, printed with `%0<digits>d`. -/
def TOTP.String (totp : TOTP) : Res String :=
  let m := pow10Int64 totp.digits
  if m = 0 then Res.panic Panic.divideByZero
  else Res.ok (sprintfZeroPad totp.digits.toNat (toInt64 (Int.tmod totp.code m)))

/-- The counter `int64(math.Floor(float64(seconds) / float64(period)))`.  For a non-zero
period and operands below `2^53` in absolute value the floating-point quotient rounds to
the same integer as the exact quotient.  For a zero period the quotient is infinite or
not a number and Go leaves the conversion to the implementation; the model takes the
result of amd64, the smallest `int64`. -/
def totpCounter (seconds period : Int) : Int :=
  if period = 0 then -9223372036854775808 else toInt64 (Int.fdiv seconds period)

/-- The function `GenerateTOTPAt`: the RFC 4226 dynamic truncation of the HMAC of the time
counter.  Each read of `secretHash` is bounds-checked as the Go runtime does. -/
def GenerateTOTPAt (secret : List Nat) (algo : String) (digits period seconds : Int) : Res TOTP :=
  let counter := totpCounter seconds period
  match getHash secret algo counter with
  | Res.error e => Res.error e
  | Res.panic x => Res.panic x
  | Res.ok secretHash =>
    match index secretHash ((secretHash.length : Int) - 1) with
    | Res.error e => Res.error e
    | Res.panic x => Res.panic x
    | Res.ok last =>
      let offset := last &&& 0xf
      match index secretHash offset with
      | Res.error e => Res.error e
      | Res.panic x => Res.panic x
      | Res.ok b0 =>
        match index secretHash ((offset + 1 : Nat)) with
        | Res.error e => Res.error e
        | Res.panic x => Res.panic x
        | Res.ok b1 =>
          match index secretHash ((offset + 2 : Nat)) with
          | Res.error e => Res.error e
          | Res.panic x => Res.panic x
          | Res.ok b2 =>
            match index secretHash ((offset + 3 : Nat)) with
            | Res.error e => Res.error e
            | Res.panic x => Res.panic x
            | Res.ok b3 =>
              let otp := ((b0 &&& 0x7f) <<< 24) ||| ((b1 &&& 0xff) <<< 16) |||
                ((b2 &&& 0xff) <<< 8) ||| (b3 &&& 0xff)
              Res.ok ⟨(otp : Nat), digits⟩

/-- The function `GenerateTOTP`, with the reading `now` of `time.Now().Unix()`. -/
def GenerateTOTP (secret : List Nat) (algo : String) (digits period now : Int) : Res TOTP :=
  GenerateTOTPAt secret algo digits period now

/-! ## Package `otp`: `steam_otp.go` -/

/-- The constant `steamAlpha`. -/
def steamAlpha : String := "23456789BCDFGHJKMNPQRTVWXY"

/-- The struct `SteamOTP`. -/
structure SteamOTP where
  code : Int
  digits : Int
  deriving DecidableEq, Repr

/-- The loop of `SteamOTP.String` with `n` iterations left: the character at index
`code % 26` is written to the builder and the code is divided by 26. -/
def steamLoop : Nat → Int → List Char → Res (List Char)
  | 0, _, builder => Res.ok builder
  | n + 1, code, builder =>
    let i := Int.tmod code (steamAlpha.toList.length : Int)
    if 0 ≤ i ∧ i < steamAlpha.toList.length then
      steamLoop n (Int.tdiv code (steamAlpha.toList.length : Int))
        (builder ++ [steamAlpha.toList.getD i.toNat '2'])
    else Res.panic (Panic.indexOutOfRange i steamAlpha.toList.length)

/-- The method `SteamOTP.String`. -/
def SteamOTP.String (sotp : SteamOTP) : Res String :=
  match steamLoop sotp.digits.toNat sotp.code [] with
  | Res.ok cs => Res.ok (String.mk cs)
  | Res.error e => Res.error e
  | Res.panic x => Res.panic x

/-- The function `GenerateSteamOTPAt`: the TOTP value converted to a `SteamOTP`. -/
def GenerateSteamOTPAt (secret : List Nat) (algo : String) (digits period seconds : Int) :
    Res SteamOTP :=
  match GenerateTOTPAt secret algo digits period seconds with
  | Res.ok totp => Res.ok ⟨totp.code, totp.digits⟩
  | Res.error e => Res.error e
  | Res.panic x => Res.panic x

/-- The function `GenerateSteamOTP`, with the reading `now` of `time.Now().Unix()`. -/
def GenerateSteamOTP (secret : List Nat) (algo : String) (digits period now : Int) :
    Res SteamOTP :=
  GenerateSteamOTPAt secret algo digits period now

/-! ## Package `otp`: `motp.go` -/

/-- The struct `MOTP`.  Its code is a string of hex digits, so bytes and characters of it
coincide. -/
structure MOTP where
  code : String
  digits : Int
  deriving DecidableEq, Repr

/-- The method `MOTP.String`: the slice `code[0:digits]`, with its bounds check. -/
def MOTP.String (motp : MOTP) : Res String :=
  if 0 ≤ motp.digits ∧ motp.digits ≤ motp.code.length then
    Res.ok (String.mk (motp.code.toList.take motp.digits.toNat))
  else Res.panic (Panic.sliceBounds motp.digits motp.code.length)

/-- The function `GenerateMOTPAt`: the hex digest of the decimal time counter, the hex
secret and the pin.  The quotient `sec / period` is Go's integer division. -/
def GenerateMOTPAt (secret : List Nat) (algo : String) (digits period : Int) (pin : String)
    (sec : Int) : Res MOTP :=
  if period = 0 then Res.panic Panic.divideByZero
  else
    let timeCounter := toInt64 (Int.tdiv sec period)
    let secretStr := hexEncodeToString secret
    let toDigest := formatInt timeCounter ++ secretStr ++ pin
    match getDigest algo (utf8Bytes toDigest) with
    | Res.ok digest => Res.ok ⟨hexEncodeToString digest, digits⟩
    | Res.error e => Res.error e
    | Res.panic x => Res.panic x

/-- The function `GenerateMOTP`, with the reading `now` of `time.Now().Unix()`. -/
def GenerateMOTP (secret : List Nat) (algo : String) (digits period : Int) (pin : String)
    (now : Int) : Res MOTP :=
  GenerateMOTPAt secret algo digits period pin now

/-! ## Package `otp`: `hotp.go` and the interface `OTP` -/

/-- The struct `HOTP`, a placeholder that holds no real data. -/
structure HOTP where
  code : Int
  digits : Int
  deriving DecidableEq, Repr

/-- The method `HOTP.String`. -/
def HOTP.String (_hotp : HOTP) : Res String := Res.ok "<!HOTP>"

/-- The values of the interface `OTP` that the program builds. -/
inductive OTP where
  | totp (t : TOTP)
  | hotp (h : HOTP)
  | steam (s : SteamOTP)
  | motp (m : MOTP)
  deriving DecidableEq, Repr

/-- The method `String` of the interface `OTP`. -/
def OTP.String : OTP → Res String
  | OTP.totp t => t.String
  | OTP.hotp h => h.String
  | OTP.steam s => s.String
  | OTP.motp m => m.String

/-- The method `Digits` of the interface `OTP`. -/
def OTP.Digits : OTP → Int
  | OTP.totp t => t.digits
  | OTP.hotp h => h.digits
  | OTP.steam s => s.digits
  | OTP.motp m => m.digits

/-! ## `golang.org/x/crypto/pbkdf2` and `golang.org/x/crypto/scrypt` -/

/-- The inner loop of `pbkdf2.Key` for one block: with `n` iterations left, the last
value `u` of the pseudo-random function is fed back and folded into `t`. -/
def pbkdf2Iterate (prf : List Nat → List Nat) : Nat → List Nat → List Nat → List Nat
  | 0, _, t => t
  | n + 1, u, t =>
    let u2 := prf u
    pbkdf2Iterate prf n u2 (xorBytes t u2)

/-- The function `pbkdf2.Key(password, salt, iter, keyLen, sha256.New)`. -/
def pbkdf2Key (password salt : List Nat) (iter keyLen : Nat) : List Nat :=
  let prf := hmacSum sha256Sum 64 password
  let numBlocks := (keyLen + 32 - 1) / 32
  let dk := (List.range numBlocks).flatMap fun i =>
    let u := prf (salt ++ beBytes 4 (i + 1))
    pbkdf2Iterate prf (iter - 1) u u
  dk.take keyLen

/-- One step of the Salsa20 core, `x[t] ^= rotl (x[a] + x[b]) k`, for `op = (t, a, b, k)`. -/
def salsaOp (x : List Nat) (op : Nat × Nat × Nat × Nat) : List Nat :=
  x.set op.1 (x.getD op.1 0 ^^^ rotl32 (u32 (x.getD op.2.1 0 + x.getD op.2.2.1 0)) op.2.2.2)

/-- The 32 steps of one double round (column round, then row round) of Salsa20. -/
def salsaDoubleRound : List (Nat × Nat × Nat × Nat) := [
  (4, 0, 12, 7), (8, 4, 0, 9), (12, 8, 4, 13), (0, 12, 8, 18),
  (9, 5, 1, 7), (13, 9, 5, 9), (1, 13, 9, 13), (5, 1, 13, 18),
  (14, 10, 6, 7), (2, 14, 10, 9), (6, 2, 14, 13), (10, 6, 2, 18),
  (3, 15, 11, 7), (7, 3, 15, 9), (11, 7, 3, 13), (15, 11, 7, 18),
  (1, 0, 3, 7), (2, 1, 0, 9), (3, 2, 1, 13), (0, 3, 2, 18),
  (6, 5, 4, 7), (7, 6, 5, 9), (4, 7, 6, 13), (5, 4, 7, 18),
  (11, 10, 9, 7), (8, 11, 10, 9), (9, 8, 11, 13), (10, 9, 8, 18),
  (12, 15, 14, 7), (13, 12, 15, 9), (14, 13, 12, 13), (15, 14, 13, 18)]

/-- The Salsa20/8 core on sixteen 32-bit words: four double rounds, then the input is
added word by word. -/
def salsa208 (inp : List Nat) : List Nat :=
  let x := (List.range 4).foldl (fun x _ => salsaDoubleRound.foldl salsaOp x) inp
  List.zipWith (fun a b => u32 (a + b)) x inp

/-- Word-wise exclusive or of two blocks of 32-bit words. -/
def xorWords (a b : List Nat) : List Nat := List.zipWith (fun x y => x ^^^ y) a b

/-- The function `blockMix` of scrypt on `2 * r` sub-blocks of sixteen words: each
sub-block is mixed into the running value by Salsa20/8; the results with even index come
first in the output, those with odd index second. -/
def blockMix (r : Nat) (b : List Nat) : List Nat :=
  let subs := blocksOf 16 (2 * r) b
  let ys := (subs.foldl
    (fun (acc : List Nat × List (List Nat)) bi =>
      let x := salsa208 (xorWords acc.1 bi)
      (x, acc.2 ++ [x]))
    (subs.getD (2 * r - 1) [], [])).2
  ((List.range r).flatMap fun i => ys.getD (2 * i) []) ++
    ((List.range r).flatMap fun i => ys.getD (2 * i + 1) [])

/-- The function `integer` of scrypt: the first 64 bits of the last sub-block. -/
def integerify (r : Nat) (x : List Nat) : Nat :=
  let j := (2 * r - 1) * 16
  x.getD j 0 ||| (x.getD (j + 1) 0 <<< 32)

/-- The first loop of `smix`: `n` times, the running block is stored and mixed. -/
def smixFill (r : Nat) : Nat → List Nat → List (List Nat) → List Nat × List (List Nat)
  | 0, x, v => (x, v)
  | n + 1, x, v => smixFill r n (blockMix r x) (v ++ [x])

/-- The second loop of `smix`: `n` times, the stored block selected by the running block is
folded in and the result is mixed. -/
def smixMix (r N : Nat) (v : List (List Nat)) : Nat → List Nat → List Nat
  | 0, x => x
  | n + 1, x => smixMix r N v n (blockMix r (xorWords x (v.getD (integerify r x % N) [])))

/-- The function `smix` of scrypt on one chunk of `128 * r` bytes. -/
def smix (r N : Nat) (b : List Nat) : List Nat :=
  let x := (blocksOf 4 (32 * r) b).map leWord
  let filled := smixFill r N x []
  (smixMix r N filled.2 N filled.1).flatMap (leBytes 4)

/-- The function `scrypt.Key`, with its parameter checks in source order.  The two
quotients by `p` and by `r` panic when the divisor is zero.  The memory that real scrypt
allocates (`128 * N * r` bytes) is not modelled. -/
def scryptKey (password salt : List Nat) (N r p : Int) (keyLen : Nat) : Res (List Nat) :=
  if N ≤ 1 ∨ N.toNat &&& (N.toNat - 1) ≠ 0 then Res.error GoError.scryptN
  else if 1073741824 ≤ ((r % 18446744073709551616) * (p % 18446744073709551616)) %
      18446744073709551616 then Res.error GoError.scryptTooLarge
  else if p = 0 then Res.panic Panic.divideByZero
  else if Int.tdiv 72057594037927935 p < r then Res.error GoError.scryptTooLarge
  else if 36028797018963967 < r then Res.error GoError.scryptTooLarge
  else if r = 0 then Res.panic Panic.divideByZero
  else if Int.tdiv 72057594037927935 r < N then Res.error GoError.scryptTooLarge
  else
    let b := pbkdf2Key password salt 1 (p.toNat * 128 * r.toNat)
    let mixed := (blocksOf (128 * r.toNat) p.toNat b).flatMap (smix r.toNat N.toNat)
    Res.ok (pbkdf2Key password mixed 1 keyLen)

/-! ## `crypto/aes` and `crypto/cipher` (GCM) -/

/-- The AES substitution box. -/
def aesSbox : List Nat := [
  0x63, 0x7c, 0x77, 0x7b, 0xf2, 0x6b, 0x6f, 0xc5, 0x30, 0x01, 0x67, 0x2b, 0xfe, 0xd7, 0xab, 0x76,
  0xca, 0x82, 0xc9, 0x7d, 0xfa, 0x59, 0x47, 0xf0, 0xad, 0xd4, 0xa2, 0xaf, 0x9c, 0xa4, 0x72, 0xc0,
  0xb7, 0xfd, 0x93, 0x26, 0x36, 0x3f, 0xf7, 0xcc, 0x34, 0xa5, 0xe5, 0xf1, 0x71, 0xd8, 0x31, 0x15,
  0x04, 0xc7, 0x23, 0xc3, 0x18, 0x96, 0x05, 0x9a, 0x07, 0x12, 0x80, 0xe2, 0xeb, 0x27, 0xb2, 0x75,
  0x09, 0x83, 0x2c, 0x1a, 0x1b, 0x6e, 0x5a, 0xa0, 0x52, 0x3b, 0xd6, 0xb3, 0x29, 0xe3, 0x2f, 0x84,
  0x53, 0xd1, 0x00, 0xed, 0x20, 0xfc, 0xb1, 0x5b, 0x6a, 0xcb, 0xbe, 0x39, 0x4a, 0x4c, 0x58, 0xcf,
  0xd0, 0xef, 0xaa, 0xfb, 0x43, 0x4d, 0x33, 0x85, 0x45, 0xf9, 0x02, 0x7f, 0x50, 0x3c, 0x9f, 0xa8,
  0x51, 0xa3, 0x40, 0x8f, 0x92, 0x9d, 0x38, 0xf5, 0xbc, 0xb6, 0xda, 0x21, 0x10, 0xff, 0xf3, 0xd2,
  0xcd, 0x0c, 0x13, 0xec, 0x5f, 0x97, 0x44, 0x17, 0xc4, 0xa7, 0x7e, 0x3d, 0x64, 0x5d, 0x19, 0x73,
  0x60, 0x81, 0x4f, 0xdc, 0x22, 0x2a, 0x90, 0x88, 0x46, 0xee, 0xb8, 0x14, 0xde, 0x5e, 0x0b, 0xdb,
  0xe0, 0x32, 0x3a, 0x0a, 0x49, 0x06, 0x24, 0x5c, 0xc2, 0xd3, 0xac, 0x62, 0x91, 0x95, 0xe4, 0x79,
  0xe7, 0xc8, 0x37, 0x6d, 0x8d, 0xd5, 0x4e, 0xa9, 0x6c, 0x56, 0xf4, 0xea, 0x65, 0x7a, 0xae, 0x08,
  0xba, 0x78, 0x25, 0x2e, 0x1c, 0xa6, 0xb4, 0xc6, 0xe8, 0xdd, 0x74, 0x1f, 0x4b, 0xbd, 0x8b, 0x8a,
  0x70, 0x3e, 0xb5, 0x66, 0x48, 0x03, 0xf6, 0x0e, 0x61, 0x35, 0x57, 0xb9, 0x86, 0xc1, 0x1d, 0x9e,
  0xe1, 0xf8, 0x98, 0x11, 0x69, 0xd9, 0x8e, 0x94, 0x9b, 0x1e, 0x87, 0xe9, 0xce, 0x55, 0x28, 0xdf,
  0x8c, 0xa1, 0x89, 0x0d, 0xbf, 0xe6, 0x42, 0x68, 0x41, 0x99, 0x2d, 0x0f, 0xb0, 0x54, 0xbb, 0x16]

/-- The round constants of the AES key expansion. -/
def aesRcon : List Nat := [0x01, 0x02, 0x04, 0x08, 0x10, 0x20, 0x40, 0x80, 0x1b, 0x36]

/-- The substitution box applied to every byte. -/
def subBytes (w : List Nat) : List Nat := w.map fun b => aesSbox.getD b 0

/-- The AES key expansion with `n` words left to produce; `i` is the index of the next
word, `w` holds the words so far, newest first. -/
def expandKeyLoop (nk : Nat) : Nat → Nat → List (List Nat) → List (List Nat)
  | 0, _, w => w
  | n + 1, i, w =>
    let prev := w.getD 0 []
    let temp :=
      if i % nk = 0 then
        xorBytes (subBytes (prev.drop 1 ++ prev.take 1)) [aesRcon.getD (i / nk - 1) 0, 0, 0, 0]
      else if 6 < nk ∧ i % nk = 4 then subBytes prev
      else prev
    expandKeyLoop nk n (i + 1) (xorBytes (w.getD (nk - 1) []) temp :: w)

/-- The function `aes.NewCipher`: the round keys of a 16, 24 or 32 byte key, sixteen bytes
each; any other key length is a `KeySizeError`. -/
def aesNewCipher (key : List Nat) : Res (List (List Nat)) :=
  if key.length = 16 ∨ key.length = 24 ∨ key.length = 32 then
    let nk := key.length / 4
    let w := expandKeyLoop nk (4 * (nk + 7) - nk) nk (blocksOf 4 nk key).reverse
    Res.ok (blocksOf 16 (nk + 7) w.reverse.flatten)
  else Res.error (GoError.aesKeySize key.length)

/-- Multiplication by `x` in the AES field. -/
def xtime (b : Nat) : Nat := if 128 ≤ b then ((b <<< 1) ^^^ 0x1b) % 256 else b <<< 1

/-- The AES MixColumns step on one column. -/
def mixColumn (c : List Nat) : List Nat :=
  let a0 := c.getD 0 0
  let a1 := c.getD 1 0
  let a2 := c.getD 2 0
  let a3 := c.getD 3 0
  [xtime a0 ^^^ (xtime a1 ^^^ a1) ^^^ a2 ^^^ a3,
   a0 ^^^ xtime a1 ^^^ (xtime a2 ^^^ a2) ^^^ a3,
   a0 ^^^ a1 ^^^ xtime a2 ^^^ (xtime a3 ^^^ a3),
   (xtime a0 ^^^ a0) ^^^ a1 ^^^ a2 ^^^ xtime a3]

/-- The AES ShiftRows step on a state of sixteen bytes in column order. -/
def shiftRows (s : List Nat) : List Nat :=
  [0, 5, 10, 15, 4, 9, 14, 3, 8, 13, 2, 7, 12, 1, 6, 11].map fun i => s.getD i 0

/-- One inner round of AES. -/
def aesRound (s rk : List Nat) : List Nat :=
  xorBytes ((blocksOf 4 4 (shiftRows (subBytes s))).flatMap mixColumn) rk

/-- The method `Encrypt` of the AES block cipher on one block of sixteen bytes. -/
def aesEncrypt (rks : List (List Nat)) (block : List Nat) : List Nat :=
  let nr := rks.length - 1
  let s := xorBytes block (rks.getD 0 [])
  let s := ((rks.drop 1).take (nr - 1)).foldl aesRound s
  xorBytes (shiftRows (subBytes s)) (rks.getD nr [])

/-- The loop of the multiplication in the field of GHASH with `n` bits of `x` left: the
bits of `x` are read from the most significant one, `v` is divided by the field
generator in every step. -/
def gfMulLoop : Nat → Nat → Nat → Nat → Nat
  | 0, _, _, z => z
  | n + 1, x, v, z =>
    gfMulLoop n x
      (if v % 2 = 1 then (v >>> 1) ^^^ 0xe1000000000000000000000000000000 else v >>> 1)
      (if x.testBit n then z ^^^ v else z)

/-- Multiplication in the field of GHASH, on blocks read as 128-bit big-endian numbers. -/
def gfMul (x y : Nat) : Nat := gfMulLoop 128 x y 0

/-- The function GHASH of GCM for empty additional data: the ciphertext blocks, the last
one padded with zero bytes, and the block of the two bit lengths. -/
def ghash (h : Nat) (ciphertext : List Nat) : Nat :=
  let blocks := (blocksOf 16 ciphertext.length ciphertext).map fun b =>
    beWord (b ++ List.replicate (16 - b.length) 0)
  (blocks ++ [8 * ciphertext.length]).foldl (fun y b => gfMul (y ^^^ b) h) 0

/-- The counter-mode key stream of GCM applied to the data: block `i` is combined with the
encryption of the nonce followed by the 32-bit counter `i + 2`. -/
def gcmCounterCrypt (rks : List (List Nat)) (nonce data : List Nat) : List Nat :=
  ((blocksOf 16 data.length data).enum.flatMap fun ib =>
    xorBytes ib.2 (aesEncrypt rks (nonce ++ beBytes 4 (ib.1 + 2))))

/-- The method `Open(nil, nonce, ciphertext, nil)` of `cipher.NewGCM(block)`: it panics on
a nonce that is not 12 bytes long, fails when the input is shorter than the tag or the
last 16 bytes are not the tag of what precedes them, and decrypts otherwise. -/
def gcmOpen (rks : List (List Nat)) (nonce ciphertext : List Nat) : Res (List Nat) :=
  if nonce.length ≠ 12 then Res.panic Panic.gcmNonceLength
  else if ciphertext.length < 16 then Res.error GoError.gcmAuthFailed
  else if 68719476720 < ciphertext.length then Res.error GoError.gcmAuthFailed
  else
    let tag := ciphertext.drop (ciphertext.length - 16)
    let ct := ciphertext.take (ciphertext.length - 16)
    let h := beWord (aesEncrypt rks (List.replicate 16 0))
    let expectedTag := xorBytes (beBytes 16 (ghash h ct)) (aesEncrypt rks (nonce ++ [0, 0, 0, 1]))
    if expectedTag = tag then Res.ok (gcmCounterCrypt rks nonce ct)
    else Res.error GoError.gcmAuthFailed

/-! ## Package `vault`: `vault.go` -/

/-- The struct `Params`: nonce and tag of one AES-GCM operation, in hex. -/
structure Params where
  Nonce : String
  Tag : String
  deriving DecidableEq, Repr

/-- The struct `Slot`: one key slot of the vault header. -/
structure Slot where
  /-- The field `Type` of the source. -/
  Typ : Int
  Uuid : String
  Key : String
  KeyParams : Params
  N : Int
  R : Int
  P : Int
  Salt : String
  Repaired : Bool
  IsBackup : Bool
  deriving DecidableEq, Repr

/-- The struct `Header`. -/
structure Header where
  Slots : List Slot
  Params : Params
  deriving DecidableEq, Repr

/-- The struct `VaultEncrypted`. -/
structure VaultEncrypted where
  Version : Int
  Header : Header
  Db : String
  deriving DecidableEq, Repr

/-- The struct `Info`: the parameters of one OTP entry. -/
structure Info where
  Secret : String
  Algo : String
  Digits : Int
  Period : Int
  Counter : Int
  Pin : String
  deriving DecidableEq, Repr

/-- The struct `Entry`. -/
structure Entry where
  /-- The field `Type` of the source. -/
  Typ : String
  Uuid : String
  Name : String
  Issuer : String
  Note : String
  Icon : String
  IconMime : String
  IconHash : String
  Favorite : Bool
  Info : Info
  Groups : List String
  deriving DecidableEq, Repr

/-- The struct `Group`. -/
structure Group where
  Uuid : String
  Name : String
  deriving DecidableEq, Repr

/-- The struct `Db`. -/
structure Db where
  Version : Int
  Entries : List Entry
  Groups : List Group
  deriving DecidableEq, Repr

/-- The struct `Vault`. -/
structure Vault where
  Version : Int
  Header : Header
  Db : Db
  deriving DecidableEq, Repr

/-! ## Package `vault`: `decrypt.go` -/

/-- The body of the loop of `FindMasterKey` for a slot of type 1: the salt is decoded, the
key is derived with scrypt, the cipher is set up, nonce, tag and wrapped key are decoded
and `Open` is called on the wrapped key followed by the tag.  The value is `some` of the
plaintext when `Open` succeeds (the loop breaks) and `none` when `Open` returns an error
(the loop goes on); an error of any earlier step is returned by `FindMasterKey` at once. -/
def slotAttempt (pwd : String) (slot : Slot) : Res (Option (List Nat)) :=
  (hexDecodeString slot.Salt).bind fun salt =>
  (scryptKey (utf8Bytes pwd) salt slot.N slot.R slot.P 32).bind fun key =>
  (aesNewCipher key).bind fun block =>
  (hexDecodeString slot.KeyParams.Nonce).bind fun nonce =>
  (hexDecodeString slot.KeyParams.Tag).bind fun tag =>
  (hexDecodeString slot.Key).bind fun slotKey =>
  match gcmOpen block nonce (slotKey ++ tag) with
  | Res.ok masterKey => Res.ok (some masterKey)
  | Res.error _ => Res.ok none
  | Res.panic x => Res.panic x

/-- The loop of `FindMasterKey` over the slots; the value is the content of the variable
`masterKey` when the loop is left. -/
def findMasterKeyLoop (pwd : String) : List Slot → Res (List Nat)
  | [] => Res.ok []
  | slot :: rest =>
    if slot.Typ ≠ 1 then findMasterKeyLoop pwd rest
    else
      match slotAttempt pwd slot with
      | Res.ok (some masterKey) => Res.ok masterKey
      | Res.ok none => findMasterKeyLoop pwd rest
      | Res.error e => Res.error e
      | Res.panic x => Res.panic x

/-- The method `VaultEncrypted.FindMasterKey`. -/
def FindMasterKey (vaultData : VaultEncrypted) (pwd : String) : Res (List Nat) :=
  match findMasterKeyLoop pwd vaultData.Header.Slots with
  | Res.ok masterKey =>
    if masterKey.length = 0 then Res.error GoError.masterKeyNotFound else Res.ok masterKey
  | Res.error e => Res.error e
  | Res.panic x => Res.panic x

/-! ## Package `avdu`: `GetOTP` and `GetOTPs` -/

/-- The function `GetOTP`, with the reading `now` of `time.Now().Unix()`.  The secret is
decoded from base32 before the switch on the type of the entry. -/
def GetOTP (entry : Entry) (now : Int) : Res OTP :=
  match base32DecodeString entry.Info.Secret with
  | Res.error e => Res.error e
  | Res.panic x => Res.panic x
  | Res.ok secretData =>
    if entry.Typ = "totp" then
      (GenerateTOTP secretData entry.Info.Algo entry.Info.Digits entry.Info.Period now).bind
        fun pass => Res.ok (OTP.totp pass)
    else if entry.Typ = "hotp" then Res.ok (OTP.hotp ⟨0, 0⟩)
    else if entry.Typ = "steam" then
      (GenerateSteamOTP secretData entry.Info.Algo entry.Info.Digits entry.Info.Period now).bind
        fun pass => Res.ok (OTP.steam pass)
    else if entry.Typ = "motp" then
      match hexDecodeString entry.Info.Secret with
      | Res.error e => Res.error e
      | Res.panic x => Res.panic x
      | Res.ok secretData =>
        (GenerateMOTP secretData entry.Info.Algo entry.Info.Digits entry.Info.Period
          entry.Info.Pin now).bind fun pass => Res.ok (OTP.motp pass)
    else Res.error (GoError.unsupportedOtpType entry.Typ)

/-- A Go `map[string]otp.OTP`, as a list of pairs with distinct keys. -/
abbrev OtpMap := List (String × OTP)

/-- The assignment `otps[uuid] = pass`: an earlier value under the same key is replaced. -/
def OtpMap.assign (otps : OtpMap) (uuid : String) (pass : OTP) : OtpMap :=
  (uuid, pass) :: otps.filter fun kv => kv.1 ≠ uuid

/-- The loop of `GetOTPs`; `i` counts the entries done, `clock i` is the reading of the
clock during the call of `GetOTP` on entry `i`, `err` is the last error so far. -/
def getOTPsLoop (clock : Nat → Int) :
    Nat → List Entry → OtpMap → Option GoError → Res (OtpMap × Option GoError)
  | _, [], otps, err => Res.ok (otps, err)
  | i, entry :: rest, otps, err =>
    match GetOTP entry (clock i) with
    | Res.ok pass => getOTPsLoop clock (i + 1) rest (otps.assign entry.Uuid pass) err
    | Res.error passErr => getOTPsLoop clock (i + 1) rest otps (some passErr)
    | Res.panic x => Res.panic x

/-- The function `GetOTPs`: the map of the generated codes and the last error, if any. -/
def GetOTPs (vaultData : Vault) (clock : Nat → Int) : Res (OtpMap × Option GoError) :=
  getOTPsLoop clock 0 vaultData.Db.Entries [] none

/-! ## Concrete entries -/

/-- A `totp` entry under the uuid `a` with the key of the RFC 6238 test vectors. -/
def entryTotp : Entry :=
  ⟨"totp", "a", "rfc", "", "", "", "", "", false,
    ⟨"GEZDGNBVGY3TQOJQGEZDGNBVGY3TQOJQ", "SHA1", 6, 30, 0, ""⟩, []⟩

/-- A second `totp` entry under the same uuid `a`, with another secret. -/
def entryTotpSameUuid : Entry :=
  ⟨"totp", "a", "hello", "", "", "", "", "", false,
    ⟨"JBSWY3DPEHPK3PXP", "SHA1", 6, 30, 0, ""⟩, []⟩

/-- An `hotp` entry under the uuid `b`. -/
def entryHotp : Entry :=
  ⟨"hotp", "b", "counter", "", "", "", "", "", false, ⟨"JBSWY3DPEHPK3PXP", "SHA1", 6, 0, 1, ""⟩, []⟩

/-- An entry of the unsupported type `yubi` under the uuid `c`. -/
def entryYubi : Entry :=
  ⟨"yubi", "c", "token", "", "", "", "", "", false, ⟨"", "SHA1", 6, 30, 0, ""⟩, []⟩

/-! ## Concrete containers

Three password slots with the scrypt parameters `N = 2`, `r = 1`, `p = 1`, and one slot of
another type.  The wrapped keys and tags were produced with scrypt and AES-256-GCM. -/

/-- A password slot that wraps the 32 bytes `a0 a1 .. bf` under the password
`correct horse`. -/
def slotHorse : Slot :=
  ⟨1, "3c9d2b0e-0001", "f87489db86b8f4c65ede5d3e89e97e5074e5c3009377096ced8ec585652346e7",
    ⟨"000102030405060708090a0b", "66f73601e23ac310d7568d0f4cdb7144"⟩, 2, 1, 1,
    "00112233445566778899aabbccddeeff", false, false⟩

/-- A password slot that wraps a key under the password `battery staple`. -/
def slotStaple : Slot :=
  ⟨1, "3c9d2b0e-0002", "c719f04487fd9060dea936022553b14a3595aaa6519b76791957c2b80baa0f3d",
    ⟨"0b0a09080706050403020100", "d2c5ef99f7b3dbb66c8f1af47376beed"⟩, 2, 1, 1,
    "ffeeddccbbaa99887766554433221100", false, false⟩

/-- A password slot whose wrapped key is empty: its tag authenticates the empty plaintext
under the password `correct horse`. -/
def slotEmpty : Slot :=
  ⟨1, "3c9d2b0e-0003", "", ⟨"a0a1a2a3a4a5a6a7a8a9aaab", "974cebdab6273bbd42f2092c988d1c9c"⟩,
    2, 1, 1, "0f1e2d3c4b5a69788796a5b4c3d2e1f0", false, false⟩

/-- A slot of type 2 (biometric) whose fields are not even hex. -/
def slotBiometric : Slot :=
  ⟨2, "3c9d2b0e-0004", "not hex", ⟨"zz", "zz"⟩, 0, 0, 0, "salt?", false, false⟩

/-- The 32 bytes `a0 a1 .. bf`. -/
def horseKey : List Nat := (List.range 32).map fun i => 160 + i

/-! ## Notions used to state the properties -/

/-- The number written by a string of decimal digits. -/
def decimalValue (cs : List Char) : Nat := cs.foldl (fun acc c => 10 * acc + (c.toNat - 48)) 0

/-- The dynamic truncation of RFC 4226 in the words of the specification: the offset is
the low nibble of the last byte of the digest, the value is the big-endian number of the
four bytes at the offset with the top bit of the first one cleared. -/
def dynamicTruncation (digest : List Nat) : Nat :=
  let offset := digest.getD (digest.length - 1) 0 % 16
  beWord [digest.getD offset 0 % 128, digest.getD (offset + 1) 0, digest.getD (offset + 2) 0,
    digest.getD (offset + 3) 0]

/-! ## Known answers: the models of the primitives against published test vectors -/

/-- The MD5 digest of `abc` (RFC 1321). -/
theorem md5Sum_abc : hexEncodeToString (md5Sum (utf8Bytes "abc")) =
    "900150983cd24fb0d6963f7d28e17f72" := by decide!

/-- The SHA-1 digest of `abc` (FIPS 180). -/
theorem sha1Sum_abc : hexEncodeToString (sha1Sum (utf8Bytes "abc")) =
    "a9993e364706816aba3e25717850c26c9cd0d89d" := by decide!

/-- The SHA-256 digest of `abc` (FIPS 180). -/
theorem sha256Sum_abc : hexEncodeToString (sha256Sum (utf8Bytes "abc")) =
    "ba7816bf8f01cfea414140de5dae2223b00361a396177a9cb410ff61f20015ad" := by decide!

/-- The SHA-512 digest of `abc` (FIPS 180). -/
theorem sha512Sum_abc : hexEncodeToString (sha512Sum (utf8Bytes "abc")) =
    "ddaf35a193617abacc417349ae20413112e6fa4e89a97ea20a9eeee64b55d39a2192992a274fc1a836ba3c23a3feebbd454d4423643ce80e2a9ac94fa54ca49f" := by
  decide!

/-- The first test case of RFC 2202 for HMAC-MD5. -/
theorem hmacSum_md5_rfc2202 :
    hexEncodeToString (hmacSum md5Sum 64 (List.replicate 16 11) (utf8Bytes "Hi There")) =
      "9294727a3638bb1c13f48ef8158bfc9d" := by decide!

/-- The AES-256 example of FIPS 197, appendix C.3. -/
theorem aesEncrypt_fips197 :
    (aesNewCipher (List.range 32)).bind (fun rks => Res.ok (hexEncodeToString (aesEncrypt rks
      [0x00, 0x11, 0x22, 0x33, 0x44, 0x55, 0x66, 0x77, 0x88, 0x99, 0xaa, 0xbb, 0xcc, 0xdd, 0xee, 0xff]))) =
      Res.ok "8ea2b7ca516745bfeafc49904b496089" := by decide!

/-- Test case 14 of the GCM specification (AES-256, zero key and nonce, one zero block):
the ciphertext followed by its tag opens to the plaintext. -/
theorem gcmOpen_testCase14 :
    (aesNewCipher (List.replicate 32 0)).bind (fun rks => gcmOpen rks (List.replicate 12 0)
      [0xce, 0xa7, 0x40, 0x3d, 0x4d, 0x60, 0x6b, 0x6e, 0x07, 0x4e, 0xc5, 0xd3, 0xba, 0xf3, 0x9d, 0x18,
       0xd0, 0xd1, 0xc8, 0xa7, 0x99, 0x99, 0x6b, 0xf0, 0x26, 0x5b, 0x98, 0xb5, 0xd4, 0x8a, 0xb9, 0x19]) =
      Res.ok (List.replicate 16 0) := by decide!

/-- The first test vector of RFC 6238: at 59 seconds the 8-digit SHA-1 code is 94287082. -/
theorem TOTP_rfc6238 :
    (GenerateTOTPAt (utf8Bytes "12345678901234567890") "SHA1" 8 30 59).bind TOTP.String =
      Res.ok "94287082" := by decide!
/-! ## Lengths and ranges of digests -/

theorem leBytes_length (n x : Nat) : (leBytes n x).length = n := by
  induction n generalizing x with
  | zero => rfl
  | succ n ih => simp [leBytes, ih]

theorem leBytes_lt (n x : Nat) : ∀ b ∈ leBytes n x, b < 256 := by
  induction n generalizing x with
  | zero => simp [leBytes]
  | succ n ih =>
    intro b hb
    simp only [leBytes, List.mem_cons] at hb
    rcases hb with rfl | hb
    · exact Nat.mod_lt _ (by omega)
    · exact ih _ b hb

theorem beBytes_length (n x : Nat) : (beBytes n x).length = n := by
  simp [beBytes, leBytes_length]

theorem beBytes_lt (n x : Nat) : ∀ b ∈ beBytes n x, b < 256 := by
  intro b hb
  exact leBytes_lt n x b (by simpa [beBytes] using hb)

theorem md5Sum_length (msg : List Nat) : (md5Sum msg).length = 16 := by
  simp [md5Sum, leBytes_length]

theorem sha1Sum_length (msg : List Nat) : (sha1Sum msg).length = 20 := by
  simp [sha1Sum, beBytes_length]

theorem sha256Sum_length (msg : List Nat) : (sha256Sum msg).length = 32 := by
  simp [sha256Sum, beBytes_length]

theorem sha512Sum_length (msg : List Nat) : (sha512Sum msg).length = 64 := by
  simp [sha512Sum, beBytes_length]

theorem md5Sum_lt (msg : List Nat) : ∀ b ∈ md5Sum msg, b < 256 := by
  intro b hb
  simp only [md5Sum, List.mem_append] at hb
  rcases hb with ((hb | hb) | hb) | hb <;> exact leBytes_lt _ _ b hb

theorem sha1Sum_lt (msg : List Nat) : ∀ b ∈ sha1Sum msg, b < 256 := by
  intro b hb
  simp only [sha1Sum, List.mem_append] at hb
  rcases hb with (((hb | hb) | hb) | hb) | hb <;> exact beBytes_lt _ _ b hb

theorem sha256Sum_lt (msg : List Nat) : ∀ b ∈ sha256Sum msg, b < 256 := by
  intro b hb
  simp only [sha256Sum, List.mem_append] at hb
  rcases hb with ((((((hb | hb) | hb) | hb) | hb) | hb) | hb) | hb <;> exact beBytes_lt _ _ b hb

theorem sha512Sum_lt (msg : List Nat) : ∀ b ∈ sha512Sum msg, b < 256 := by
  intro b hb
  simp only [sha512Sum, List.mem_append] at hb
  rcases hb with ((((((hb | hb) | hb) | hb) | hb) | hb) | hb) | hb <;> exact beBytes_lt _ _ b hb

/-- A digest returned by `getHash` has at least 16 bytes, and every byte is below 256. -/
theorem getHash_ok (secret : List Nat) (algo : String) (counter : Int) (digest : List Nat)
    (h : getHash secret algo counter = Res.ok digest) :
    16 ≤ digest.length ∧ ∀ b ∈ digest, b < 256 := by
  unfold getHash at h
  split_ifs at h <;> injection h with h <;> subst h <;> unfold hmacSum
  · exact ⟨by rw [sha1Sum_length]; omega, sha1Sum_lt _⟩
  · exact ⟨by rw [sha256Sum_length]; omega, sha256Sum_lt _⟩
  · exact ⟨by rw [sha512Sum_length]; omega, sha512Sum_lt _⟩
  · exact ⟨by rw [md5Sum_length], md5Sum_lt _⟩

/-- A digest of one of the three SHA functions has at least 20 bytes. -/
theorem getHash_sha_length (secret : List Nat) (algo : String) (counter : Int)
    (halgo : algo = "SHA1" ∨ algo = "SHA256" ∨ algo = "SHA512") :
    ∃ digest, getHash secret algo counter = Res.ok digest ∧ 20 ≤ digest.length := by
  rcases halgo with rfl | rfl | rfl
  · refine ⟨hmacSum sha1Sum 64 secret (beBytes 8 (counter % 18446744073709551616).toNat), ?_, ?_⟩
    · simp [getHash]
    · unfold hmacSum
      rw [sha1Sum_length]
  · refine ⟨hmacSum sha256Sum 64 secret (beBytes 8 (counter % 18446744073709551616).toNat), ?_, ?_⟩
    · simp [getHash]
    · unfold hmacSum
      rw [sha256Sum_length]
      omega
  · refine ⟨hmacSum sha512Sum 128 secret (beBytes 8 (counter % 18446744073709551616).toNat),
      ?_, ?_⟩
    · simp [getHash]
    · unfold hmacSum
      rw [sha512Sum_length]
      omega

theorem index_ok_iff (s : List Nat) (i : Int) (b : Nat) :
    index s i = Res.ok b ↔ (0 ≤ i ∧ i < s.length) ∧ b = s.getD i.toNat 0 := by
  unfold index
  by_cases h : 0 ≤ i ∧ i < s.length
  · rw [if_pos h]
    constructor
    · intro hb
      injection hb with hb
      exact ⟨h, hb.symm⟩
    · rintro ⟨_, rfl⟩
      rfl
  · rw [if_neg h]
    constructor
    · intro hb
      cases hb
    · rintro ⟨h2, _⟩
      exact absurd h2 h

theorem index_ofNat (s : List Nat) (i : Nat) (h : i < s.length) :
    index s (i : Int) = Res.ok (s.getD i 0) := by
  rw [index_ok_iff]
  exact ⟨⟨by omega, by exact_mod_cast h⟩, by simp⟩

/-- The four masked and shifted bytes of the truncation, as a sum. -/
theorem truncation_bits (b0 b1 b2 b3 : Nat) (h1 : b1 < 256) (h2 : b2 < 256) (h3 : b3 < 256) :
    ((b0 &&& 0x7f) <<< 24) ||| ((b1 &&& 0xff) <<< 16) ||| ((b2 &&& 0xff) <<< 8) ||| (b3 &&& 0xff) =
      b0 % 128 * 16777216 + b1 * 65536 + b2 * 256 + b3 := by
  have e0 : b0 &&& 0x7f = b0 % 128 := Nat.and_pow_two_sub_one_eq_mod b0 7
  have e1 : b1 &&& 0xff = b1 := by
    rw [show (0xff : Nat) = 2 ^ 8 - 1 from rfl, Nat.and_pow_two_sub_one_eq_mod]
    exact Nat.mod_eq_of_lt h1
  have e2 : b2 &&& 0xff = b2 := by
    rw [show (0xff : Nat) = 2 ^ 8 - 1 from rfl, Nat.and_pow_two_sub_one_eq_mod]
    exact Nat.mod_eq_of_lt h2
  have e3 : b3 &&& 0xff = b3 := by
    rw [show (0xff : Nat) = 2 ^ 8 - 1 from rfl, Nat.and_pow_two_sub_one_eq_mod]
    exact Nat.mod_eq_of_lt h3
  rw [e0, e1, e2, e3, Nat.shiftLeft_eq, Nat.shiftLeft_eq, Nat.shiftLeft_eq]
  have s1 : b0 % 128 * 2 ^ 24 ||| b1 * 2 ^ 16 = 2 ^ 16 * (b0 % 128 * 256 + b1) := by
    rw [show b0 % 128 * 2 ^ 24 = 2 ^ 24 * (b0 % 128) by ring,
      ← Nat.mul_add_lt_is_or (by omega : b1 * 2 ^ 16 < 2 ^ 24)]
    ring
  have s2 : 2 ^ 16 * (b0 % 128 * 256 + b1) ||| b2 * 2 ^ 8 =
      2 ^ 8 * ((b0 % 128 * 256 + b1) * 256 + b2) := by
    rw [← Nat.mul_add_lt_is_or (by omega : b2 * 2 ^ 8 < 2 ^ 16)]
    ring
  rw [s1, s2, ← Nat.mul_add_lt_is_or (by omega : b3 < 2 ^ 8)]
  ring
/-! ## The dynamic truncation of `GenerateTOTPAt` -/

theorem index_ofNat_ge (s : List Nat) (i : Nat) (h : s.length ≤ i) :
    index s (i : Int) = Res.panic (Panic.indexOutOfRange i s.length) := by
  unfold index
  rw [if_neg]
  omega

theorem dynamicTruncation_eq (digest : List Nat) (h : ∀ b ∈ digest, b < 256)
    (hlen : digest.getD (digest.length - 1) 0 % 16 + 4 ≤ digest.length) :
    dynamicTruncation digest =
      digest.getD (digest.getD (digest.length - 1) 0 % 16) 0 % 128 * 16777216 +
      digest.getD (digest.getD (digest.length - 1) 0 % 16 + 1) 0 * 65536 +
      digest.getD (digest.getD (digest.length - 1) 0 % 16 + 2) 0 * 256 +
      digest.getD (digest.getD (digest.length - 1) 0 % 16 + 3) 0 := by
  have hb : ∀ i, i < digest.length → digest.getD i 0 < 256 := by
    intro i hi
    rw [List.getD_eq_getElem _ _ hi]
    exact h _ (List.getElem_mem _)
  have h1 := hb (digest.getD (digest.length - 1) 0 % 16 + 1) (by omega)
  have h2 := hb (digest.getD (digest.length - 1) 0 % 16 + 2) (by omega)
  have h3 := hb (digest.getD (digest.length - 1) 0 % 16 + 3) (by omega)
  simp only [dynamicTruncation, beWord, List.foldl_cons, List.foldl_nil]
  rw [Nat.mod_eq_of_lt h1, Nat.mod_eq_of_lt h2, Nat.mod_eq_of_lt h3]
  omega

/-- What `GenerateTOTPAt` does once the digest is known: when the four bytes at the offset
lie inside the digest it returns the truncation, otherwise the first read past the end
panics. -/
theorem GenerateTOTPAt_of_digest (secret : List Nat) (algo : String) (digits period seconds : Int)
    (digest : List Nat)
    (hg : getHash secret algo (totpCounter seconds period) = Res.ok digest) :
    GenerateTOTPAt secret algo digits period seconds =
      if digest.getD (digest.length - 1) 0 % 16 + 4 ≤ digest.length then
        Res.ok ⟨(dynamicTruncation digest : Nat), digits⟩
      else Res.panic (Panic.indexOutOfRange digest.length digest.length) := by
  obtain ⟨hlen, hbytes⟩ := getHash_ok _ _ _ _ hg
  have hb : ∀ i, i < digest.length → digest.getD i 0 < 256 := by
    intro i hi
    rw [List.getD_eq_getElem _ _ hi]
    exact hbytes _ (List.getElem_mem _)
  have hlast : index digest ((digest.length : Int) - 1) =
      Res.ok (digest.getD (digest.length - 1) 0) := by
    rw [index_ok_iff]
    refine ⟨⟨by omega, by omega⟩, ?_⟩
    congr 1
    omega
  have hoff : digest.getD (digest.length - 1) 0 &&& 0xf = digest.getD (digest.length - 1) 0 % 16 :=
    Nat.and_pow_two_sub_one_eq_mod _ 4
  have ho : digest.getD (digest.length - 1) 0 % 16 < 16 := Nat.mod_lt _ (by omega)
  unfold GenerateTOTPAt
  simp only [hg, hlast, hoff]
  by_cases hin : digest.getD (digest.length - 1) 0 % 16 + 4 ≤ digest.length
  · rw [if_pos hin, dynamicTruncation_eq digest hbytes hin]
    generalize digest.getD (digest.length - 1) 0 % 16 = o at ho hin ⊢
    rw [index_ofNat digest o (by omega), index_ofNat digest (o + 1) (by omega),
      index_ofNat digest (o + 2) (by omega), index_ofNat digest (o + 3) (by omega)]
    simp only []
    rw [truncation_bits _ _ _ _ (hb _ (by omega)) (hb _ (by omega)) (hb _ (by omega))]
  · rw [if_neg hin]
    generalize digest.getD (digest.length - 1) 0 % 16 = o at ho hin ⊢
    rw [index_ofNat digest o (by omega)]
    simp only []
    by_cases h1 : o + 1 < digest.length
    · rw [index_ofNat digest (o + 1) h1]
      simp only []
      by_cases h2 : o + 2 < digest.length
      · rw [index_ofNat digest (o + 2) h2, index_ofNat_ge digest (o + 3) (by omega)]
        simp only []
        congr 2
        omega
      · rw [index_ofNat_ge digest (o + 2) (by omega)]
        simp only []
        congr 2
        omega
    · rw [index_ofNat_ge digest (o + 1) (by omega)]
      simp only []
      congr 2
      omega

theorem dynamicTruncation_lt (digest : List Nat) (h : ∀ b ∈ digest, b < 256)
    (hlen : digest.getD (digest.length - 1) 0 % 16 + 4 ≤ digest.length) :
    dynamicTruncation digest < 2 ^ 31 := by
  have hb : ∀ i, i < digest.length → digest.getD i 0 < 256 := by
    intro i hi
    rw [List.getD_eq_getElem _ _ hi]
    exact h _ (List.getElem_mem _)
  have h1 := hb (digest.getD (digest.length - 1) 0 % 16 + 1) (by omega)
  have h2 := hb (digest.getD (digest.length - 1) 0 % 16 + 2) (by omega)
  have h3 := hb (digest.getD (digest.length - 1) 0 % 16 + 3) (by omega)
  rw [dynamicTruncation_eq digest h hlen]
  omega

/-- With SHA-1, SHA-256 or SHA-512 the truncation always stays inside the digest, so
`GenerateTOTPAt` returns a code for every secret, period and time. -/
theorem GenerateTOTPAt_sha_total (secret : List Nat) (algo : String) (digits period seconds : Int)
    (halgo : algo = "SHA1" ∨ algo = "SHA256" ∨ algo = "SHA512") :
    ∃ digest, getHash secret algo (totpCounter seconds period) = Res.ok digest ∧
      digest.getD (digest.length - 1) 0 % 16 + 4 ≤ digest.length ∧
      GenerateTOTPAt secret algo digits period seconds =
        Res.ok ⟨(dynamicTruncation digest : Nat), digits⟩ := by
  obtain ⟨digest, hg, hlen⟩ := getHash_sha_length secret algo (totpCounter seconds period) halgo
  have ho : digest.getD (digest.length - 1) 0 % 16 < 16 := Nat.mod_lt _ (by omega)
  refine ⟨digest, hg, by omega, ?_⟩
  rw [GenerateTOTPAt_of_digest _ _ _ _ _ digest hg, if_pos (by omega)]

/-- C10. Whenever `GenerateTOTPAt` or `GenerateSteamOTPAt` returns without error, the raw
code is the dynamic truncation of the digest that `getHash` returned for the time counter:
the big-endian value of the four digest bytes at the offset `digest[len-1] & 0x0F`, top
bit of the first byte cleared.  The four bytes lie inside the digest and the code is a
31-bit integer that is not negative. -/
theorem GenerateTOTPAt_code_31bit (secret : List Nat) (algo : String)
    (digits period seconds code : Int)
    (h : (∃ t, GenerateTOTPAt secret algo digits period seconds = Res.ok t ∧ t.code = code) ∨
      (∃ s, GenerateSteamOTPAt secret algo digits period seconds = Res.ok s ∧ s.code = code)) :
    ∃ digest, getHash secret algo (totpCounter seconds period) = Res.ok digest ∧
      digest.getD (digest.length - 1) 0 % 16 + 4 ≤ digest.length ∧
      code = (dynamicTruncation digest : Nat) ∧ 0 ≤ code ∧ code < 2 ^ 31 := by
  have key : ∀ t, GenerateTOTPAt secret algo digits period seconds = Res.ok t → t.code = code →
      ∃ digest, getHash secret algo (totpCounter seconds period) = Res.ok digest ∧
        digest.getD (digest.length - 1) 0 % 16 + 4 ≤ digest.length ∧
        code = (dynamicTruncation digest : Nat) ∧ 0 ≤ code ∧ code < 2 ^ 31 := by
    intro t ht hcode
    cases hg : getHash secret algo (totpCounter seconds period) with
    | error e =>
      unfold GenerateTOTPAt at ht
      simp only [hg] at ht
      cases ht
    | panic x =>
      unfold GenerateTOTPAt at ht
      simp only [hg] at ht
      cases ht
    | ok digest =>
      rw [GenerateTOTPAt_of_digest _ _ _ _ _ digest hg] at ht
      by_cases hin : digest.getD (digest.length - 1) 0 % 16 + 4 ≤ digest.length
      · rw [if_pos hin] at ht
        injection ht with ht
        subst ht
        subst hcode
        have hlt := dynamicTruncation_lt digest (getHash_ok _ _ _ _ hg).2 hin
        refine ⟨digest, rfl, hin, rfl, ?_, ?_⟩
        · exact Int.ofNat_nonneg _
        · show ((dynamicTruncation digest : Nat) : Int) < 2 ^ 31
          exact_mod_cast hlt
      · rw [if_neg hin] at ht
        cases ht
  rcases h with ⟨t, ht, hcode⟩ | ⟨s, hs, hcode⟩
  · exact key t ht hcode
  · unfold GenerateSteamOTPAt at hs
    cases ht : GenerateTOTPAt secret algo digits period seconds with
    | error e =>
      simp only [ht] at hs
      cases hs
    | panic x =>
      simp only [ht] at hs
      cases hs
    | ok t =>
      simp only [ht] at hs
      injection hs with hs
      subst hs
      exact key t ht hcode

/-- C10, at a concrete input: the first test vector of RFC 6238 (SHA-1, 59 seconds). -/
theorem GenerateTOTPAt_code_31bit_witness :
    ∃ digest, getHash (utf8Bytes "12345678901234567890") "SHA1" (totpCounter 59 30) =
        Res.ok digest ∧
      digest.getD (digest.length - 1) 0 % 16 + 4 ≤ digest.length ∧
      (1094287082 : Int) = (dynamicTruncation digest : Nat) ∧
      (0 : Int) ≤ 1094287082 ∧ (1094287082 : Int) < 2 ^ 31 :=
  GenerateTOTPAt_code_31bit (utf8Bytes "12345678901234567890") "SHA1" 8 30 59 1094287082
    (Or.inl ⟨⟨1094287082, 8⟩, by decide!, rfl⟩)

/-! ## Decimal formatting and `TOTP.String` -/

theorem digitChar_toNat (u : Nat) : (digitChar u).toNat = 48 + u % 10 := by
  have h : u % 10 < 10 := Nat.mod_lt _ (by omega)
  unfold digitChar
  generalize u % 10 = k at h
  interval_cases k <;> rfl

theorem digitChar_isDigit (u : Nat) : (digitChar u).isDigit = true := by
  have h : u % 10 < 10 := Nat.mod_lt _ (by omega)
  unfold digitChar
  generalize u % 10 = k at h
  interval_cases k <;> rfl

/-- The digit loop writes its digits in front of what is already there. -/
theorem decimalDigits_append (fuel u : Nat) (acc : List Char) :
    decimalDigits fuel u acc = decimalDigits fuel u [] ++ acc := by
  induction fuel generalizing u acc with
  | zero => simp [decimalDigits]
  | succ fuel ih =>
    unfold decimalDigits
    by_cases h : 10 ≤ u
    · rw [if_pos h, if_pos h, ih (u / 10) (digitChar u :: acc), ih (u / 10) [digitChar u]]
      simp
    · rw [if_neg h, if_neg h]
      simp

theorem decimalValue_append_singleton (cs : List Char) (c : Char) :
    decimalValue (cs ++ [c]) = 10 * decimalValue cs + (c.toNat - 48) := by
  simp [decimalValue, List.foldl_append]

/-- The digits written by the loop denote the number. -/
theorem decimalValue_decimalDigits (fuel u : Nat) (h : u ≤ fuel) :
    decimalValue (decimalDigits fuel u []) = u := by
  induction fuel generalizing u with
  | zero =>
    have hu : u = 0 := by omega
    subst hu
    rfl
  | succ fuel ih =>
    unfold decimalDigits
    by_cases h10 : 10 ≤ u
    · rw [if_pos h10, decimalDigits_append, decimalValue_append_singleton, ih (u / 10) (by omega),
        digitChar_toNat]
      omega
    · rw [if_neg h10]
      simp only [decimalValue, List.foldl_cons, List.foldl_nil, digitChar_toNat]
      omega

/-- A number below `10^d` is written with at most `d` digits. -/
theorem decimalDigits_length_le (fuel u d : Nat) (h : u ≤ fuel) (hd : 1 ≤ d) (hu : u < 10 ^ d) :
    (decimalDigits fuel u []).length ≤ d := by
  induction fuel generalizing u d with
  | zero => simpa [decimalDigits] using hd
  | succ fuel ih =>
    unfold decimalDigits
    by_cases h10 : 10 ≤ u
    · rw [if_pos h10, decimalDigits_append]
      obtain ⟨e, rfl⟩ : ∃ e, d = e + 1 := ⟨d - 1, by omega⟩
      have he : 1 ≤ e := by
        rcases Nat.eq_zero_or_pos e with h0 | h0
        · subst h0
          simp at hu
          omega
        · exact h0
      have hdiv : u / 10 < 10 ^ e := by
        rw [Nat.div_lt_iff_lt_mul (by omega)]
        rw [pow_succ] at hu
        exact hu
      have := ih (u / 10) e (by omega) he hdiv
      simp only [List.length_append, List.length_singleton]
      omega
    · rw [if_neg h10]
      simpa using hd

theorem decimalDigits_isDigit (fuel u : Nat) : ∀ c ∈ decimalDigits fuel u [], c.isDigit = true := by
  induction fuel generalizing u with
  | zero =>
    intro c hc
    simp only [decimalDigits, List.mem_singleton] at hc
    subst hc
    exact digitChar_isDigit u
  | succ fuel ih =>
    intro c hc
    unfold decimalDigits at hc
    by_cases h10 : 10 ≤ u
    · rw [if_pos h10, decimalDigits_append] at hc
      rcases List.mem_append.mp hc with h1 | h1
      · exact ih _ c h1
      · simp only [List.mem_singleton] at h1
        subst h1
        exact digitChar_isDigit u
    · rw [if_neg h10] at hc
      simp only [List.mem_singleton] at hc
      subst hc
      exact digitChar_isDigit u

theorem decimalValue_zeros_append (k : Nat) (cs : List Char) :
    decimalValue (List.replicate k '0' ++ cs) = decimalValue cs := by
  induction k with
  | zero => simp
  | succ k ih =>
    have h0 : ('0' : Char).toNat - 48 = 0 := by decide
    simp only [decimalValue, List.replicate_succ, List.cons_append, List.foldl_cons, h0] at ih ⊢
    exact ih

theorem toInt64_of_small (x : Int) (h0 : 0 ≤ x) (h1 : x < 9223372036854775808) : toInt64 x = x := by
  unfold toInt64
  omega

/-- C8. For every raw code with `0 ≤ code < 2^31` and every digit count from 1 to 9,
`TOTP.String` returns the decimal representation of `code mod 10^digits` padded on the
left with zeros: a string of exactly `digits` characters, all decimal digits, that
denotes `code mod 10^digits`. -/
theorem TOTP_String_decimal (code digits : Int) (hcode : 0 ≤ code) (hcode2 : code < 2 ^ 31)
    (hd1 : 1 ≤ digits) (hd9 : digits ≤ 9) :
    ∃ s : String, TOTP.String ⟨code, digits⟩ = Res.ok s ∧
      (s.length : Int) = digits ∧
      (∀ c ∈ s.toList, c.isDigit = true) ∧
      (decimalValue s.toList : Int) = code % 10 ^ digits.toNat := by
  obtain ⟨c, rfl⟩ := Int.eq_ofNat_of_zero_le hcode
  obtain ⟨d, rfl⟩ := Int.eq_ofNat_of_zero_le (by omega : (0 : Int) ≤ digits)
  have hd1n : 1 ≤ d := by exact_mod_cast hd1
  have hd9n : d ≤ 9 := by exact_mod_cast hd9
  have hpos : 0 < 10 ^ d := by positivity
  have hpow : 10 ^ d ≤ 10 ^ 9 := Nat.pow_le_pow_right (by omega) hd9n
  have hlt : c % 10 ^ d < 10 ^ d := Nat.mod_lt _ hpos
  have hm : pow10Int64 (d : Int) = ((10 ^ d : Nat) : Int) := by
    unfold pow10Int64
    rw [if_neg (by omega), if_pos (by omega)]
    simp
  have hmod : Int.tmod (c : Int) ((10 ^ d : Nat) : Int) = ((c % 10 ^ d : Nat) : Int) := by
    rw [Int.tmod_eq_emod (Int.ofNat_nonneg _) (Int.ofNat_nonneg _)]
    exact (Int.natCast_mod _ _).symm
  have hwrap : toInt64 ((c % 10 ^ d : Nat) : Int) = ((c % 10 ^ d : Nat) : Int) :=
    toInt64_of_small _ (by omega) (by omega)
  have hlen := decimalDigits_length_le (c % 10 ^ d) (c % 10 ^ d) d (le_refl _) hd1n hlt
  refine ⟨String.mk (List.replicate (d - (decimalDigits (c % 10 ^ d) (c % 10 ^ d) []).length) '0' ++
    decimalDigits (c % 10 ^ d) (c % 10 ^ d) []), ?_, ?_, ?_, ?_⟩
  · unfold TOTP.String
    simp only [hm, hmod, hwrap]
    rw [if_neg (by omega)]
    unfold sprintfZeroPad
    simp only [Int.toNat_ofNat, Int.natAbs_ofNat]
    rw [if_neg (by omega), if_neg (by omega)]
  · simp only [String.length, List.length_append, List.length_replicate]
    omega
  · intro ch hch
    change ch ∈ _ ++ _ at hch
    rcases List.mem_append.mp hch with h | h
    · rw [(List.mem_replicate.mp h).2]
      rfl
    · exact decimalDigits_isDigit _ _ ch h
  · change (decimalValue (_ ++ _) : Int) = _
    rw [decimalValue_zeros_append, decimalValue_decimalDigits _ _ (le_refl _)]
    simp

/-- C8, at a concrete input: the raw value of the RFC 6238 test vector with six digits. -/
theorem TOTP_String_decimal_witness :
    ∃ s : String, TOTP.String ⟨1094287082, 6⟩ = Res.ok s ∧
      (s.length : Int) = 6 ∧
      (∀ c ∈ s.toList, c.isDigit = true) ∧
      (decimalValue s.toList : Int) = 1094287082 % 10 ^ (6 : Int).toNat :=
  TOTP_String_decimal 1094287082 6 (by decide) (by decide) (by decide) (by decide)

/-! ## Steam codes -/

theorem steamAlpha_length : steamAlpha.toList.length = 26 := by decide

/-- For a code that is not negative the loop of `SteamOTP.String` never panics and writes
the base-26 digits of the code, least significant first. -/
theorem steamLoop_ofNat (n code : Nat) (builder : List Char) :
    steamLoop n (code : Int) builder =
      Res.ok (builder ++ (List.range n).map fun i =>
        steamAlpha.toList.getD (code / 26 ^ i % 26) '2') := by
  induction n generalizing code builder with
  | zero => simp [steamLoop]
  | succ n ih =>
    have hmod : Int.tmod (code : Int) 26 = ((code % 26 : Nat) : Int) := by
      rw [Int.tmod_eq_emod (by omega) (by omega)]; norm_cast
    have hdiv : Int.tdiv (code : Int) 26 = ((code / 26 : Nat) : Int) := by
      rw [Int.tdiv_eq_ediv (by omega) (by omega)]; norm_cast
    have hlt : code % 26 < 26 := Nat.mod_lt _ (by omega)
    rw [steamLoop]
    simp only [steamAlpha_length, Nat.cast_ofNat, hmod, hdiv]
    rw [if_pos (by constructor <;> omega), ih]
    simp only [Int.toNat_ofNat, List.append_assoc, List.singleton_append, List.range_succ_eq_map,
      List.map_cons, List.map_map, pow_zero, Nat.div_one]
    congr 3
    apply List.map_congr_left
    intro i _
    simp [Function.comp, pow_succ, Nat.div_div_eq_div_mul, Nat.mul_comm]

/-- C9. For every raw code that is not negative and every digit count that is not
negative, `SteamOTP.String` returns a string of exactly `digits` characters, all of the
alphabet `23456789BCDFGHJKMNPQRTVWXY`, whose character at position `i` is the alphabet
character with index `(code / 26^i) mod 26`: the least significant base-26 digit comes
first. -/
theorem SteamOTP_String_base26 (code digits : Int) (hcode : 0 ≤ code) (hdigits : 0 ≤ digits) :
    ∃ s : String, SteamOTP.String ⟨code, digits⟩ = Res.ok s ∧
      (s.length : Int) = digits ∧
      (∀ c ∈ s.toList, c ∈ steamAlpha.toList) ∧
      ∀ i : Nat, (i : Int) < digits →
        s.toList[i]? = steamAlpha.toList[code.toNat / 26 ^ i % 26]? := by
  obtain ⟨c, rfl⟩ := Int.eq_ofNat_of_zero_le hcode
  obtain ⟨d, rfl⟩ := Int.eq_ofNat_of_zero_le hdigits
  have hidx : ∀ i : Nat, c / 26 ^ i % 26 < steamAlpha.toList.length := by
    intro i
    rw [steamAlpha_length]
    exact Nat.mod_lt _ (by omega)
  refine ⟨String.mk ((List.range d).map fun i => steamAlpha.toList.getD (c / 26 ^ i % 26) '2'),
    ?_, ?_, ?_, ?_⟩
  · simp only [SteamOTP.String, Int.toNat_ofNat, steamLoop_ofNat, List.nil_append]
  · simp only [String.length, List.length_map, List.length_range]
  · intro ch hch
    change ch ∈ List.map _ _ at hch
    simp only [List.mem_map, List.mem_range] at hch
    obtain ⟨i, _, rfl⟩ := hch
    rw [List.getD_eq_getElem _ _ (hidx i)]
    exact List.getElem_mem _
  · intro i hi
    have hi2 : i < d := by exact_mod_cast hi
    change (List.map _ _)[i]? = _
    rw [List.getElem?_map, List.getElem?_range hi2, Int.toNat_ofNat,
      List.getElem?_eq_getElem (hidx i), Option.map_some', List.getD_eq_getElem _ _ (hidx i)]

/-- C9, at a concrete input: the code 1094287082 with five characters. -/
theorem SteamOTP_String_base26_witness :
    ∃ s : String, SteamOTP.String ⟨1094287082, 5⟩ = Res.ok s ∧
      (s.length : Int) = 5 ∧
      (∀ c ∈ s.toList, c ∈ steamAlpha.toList) ∧
      ∀ i : Nat, (i : Int) < 5 →
        s.toList[i]? = steamAlpha.toList[(1094287082 : Int).toNat / 26 ^ i % 26]? :=
  SteamOTP_String_base26 1094287082 5 (by decide) (by decide)

/-! ## The defects: evaluations of the code at failing inputs -/

/-- C1 (defect of the code). With HMAC-MD5 the digest has 16 bytes; for the key
`12345678901234567890` and the time counter 0 its last byte is `0xef`, the offset is 15
and `GenerateTOTPAt` reads `secretHash[16]`: the Go runtime panics with an index out of
range, so the truncation does not stay inside the digest. -/
theorem GenerateTOTPAt_md5_reads_past_digest :
    getHash (utf8Bytes "12345678901234567890") "MD5" (totpCounter 0 30) =
      Res.ok [28, 9, 19, 129, 62, 230, 108, 28, 136, 30, 182, 43, 181, 190, 104, 239] ∧
    GenerateTOTPAt (utf8Bytes "12345678901234567890") "MD5" 6 30 0 =
      Res.panic (Panic.indexOutOfRange 16 16) := by
  decide!

/-- C2 (defect of the code). An entry of type `motp` whose period is zero makes `GetOTP`
panic with an integer division by zero at every clock time; no period of 30 seconds is
put in its place.  The same entry with period 30 yields a code. -/
theorem GetOTP_motp_zero_period_panics :
    (∀ now : Int, GetOTP ⟨"motp", "u1", "", "", "", "", "", "", false,
      ⟨"A2B3C4D5E6F7A2B3", "MD5", 6, 0, 0, "1234"⟩, []⟩ now = Res.panic Panic.divideByZero) ∧
    GetOTP ⟨"motp", "u1", "", "", "", "", "", "", false,
      ⟨"A2B3C4D5E6F7A2B3", "MD5", 6, 30, 0, "1234"⟩, []⟩ 1700000000 =
        Res.ok (OTP.motp ⟨"36c67d8c3188d591e3fcdaaffe051343", 6⟩) := by
  constructor
  · intro now
    have hb : base32DecodeString "A2B3C4D5E6F7A2B3" =
        Res.ok [6, 131, 177, 112, 125, 39, 139, 240, 104, 59] := by decide!
    have hh : hexDecodeString "A2B3C4D5E6F7A2B3" =
        Res.ok [162, 179, 196, 213, 230, 247, 162, 179] := by decide!
    simp [GetOTP, hb, hh, GenerateMOTP, GenerateMOTPAt, Res.bind]
  · decide!

/-- C3 (defect of the code). The secret `0123456789abcdef` of an entry of type `motp` is
valid hex and the mOTP of its bytes exists, yet `GetOTP` fails at every clock time with
the base32 error for its first character: the secret is decoded from base32 before the
type of the entry is looked at. -/
theorem GetOTP_motp_hex_secret_rejected :
    (∀ now : Int, GetOTP ⟨"motp", "u1", "", "", "", "", "", "", false,
      ⟨"0123456789abcdef", "MD5", 6, 10, 0, "1234"⟩, []⟩ now =
        Res.error (GoError.base32Corrupt 0)) ∧
    hexDecodeString "0123456789abcdef" = Res.ok [1, 35, 69, 103, 137, 171, 205, 239] ∧
    GenerateMOTPAt [1, 35, 69, 103, 137, 171, 205, 239] "MD5" 6 10 "1234" 1700000000 =
      Res.ok ⟨"05aae576d3e806ef9263c110f0ba4957", 6⟩ := by
  refine ⟨?_, by decide!, by decide!⟩
  intro now
  have hb : base32DecodeString "0123456789abcdef" = Res.error (GoError.base32Corrupt 0) := by
    decide!
  simp [GetOTP, hb]

/-- C4 (defect of the code). With 33 digits and MD5, whose hex digest has 32 characters,
`GenerateMOTPAt` returns a value and no error, and `MOTP.String` on that value panics
with slice bounds out of range: the oversized digit count does not surface as an error. -/
theorem MOTP_String_panics_past_digest :
    GenerateMOTPAt [227, 21, 42, 254, 230, 37, 153, 200] "MD5" 33 10 "4711" 1700000000 =
      Res.ok ⟨"7d22866b6d48178f389edc4bd4ab9ab2", 33⟩ ∧
    MOTP.String ⟨"7d22866b6d48178f389edc4bd4ab9ab2", 33⟩ = Res.panic (Panic.sliceBounds 33 32) := by
  decide!

/-! ## Batch generation: `GetOTPs` -/

theorem assign_of_not_mem (m : OtpMap) (k : String) (v : OTP) (h : k ∉ m.map Prod.fst) :
    OtpMap.assign m k v = (k, v) :: m := by
  unfold OtpMap.assign
  congr 1
  rw [List.filter_eq_self]
  intro kv hkv
  have : kv.1 ≠ k := by
    intro heq
    exact h (heq ▸ List.mem_map_of_mem Prod.fst hkv)
  simpa using this

/-- An entry whose type is none of the four supported ones makes `GetOTP` return an error
and never a panic. -/
theorem GetOTP_unsupported (entry : Entry) (now : Int)
    (h : entry.Typ ≠ "totp" ∧ entry.Typ ≠ "hotp" ∧ entry.Typ ≠ "steam" ∧ entry.Typ ≠ "motp") :
    ∃ e, GetOTP entry now = Res.error e := by
  obtain ⟨h1, h2, h3, h4⟩ := h
  unfold GetOTP
  cases hb : base32DecodeString entry.Info.Secret with
  | error e => exact ⟨e, rfl⟩
  | panic x =>
    exfalso
    unfold base32DecodeString at hb
    revert hb
    generalize (utf8Bytes entry.Info.Secret).filter _ = src
    intro hb
    have hv : ∀ (cs : List Nat) (i : Nat), base32Values i cs ≠ Res.panic x := by
      intro cs
      induction cs with
      | nil =>
        intro i
        simp [base32Values]
      | cons c cs ih =>
        intro i
        unfold base32Values
        cases base32Value c with
        | none => simp
        | some v =>
          have := ih (i + 1)
          cases hr : base32Values (i + 1) cs with
          | ok vs => simp
          | error e => simp
          | panic y =>
            simp only []
            intro hxy
            injection hxy with hxy
            exact this (hxy ▸ hr)
    cases hr : base32Values 0 src with
    | ok vs => simp [hr] at hb
    | error e => simp [hr] at hb
    | panic y =>
      simp only [hr] at hb
      injection hb with hb
      exact hv src 0 (hb ▸ hr)
  | ok secretData =>
    simp only []
    rw [if_neg h1, if_neg h2, if_neg h3, if_neg h4]
    exact ⟨_, rfl⟩

/-- The loop of `GetOTPs` over entries that all succeed and whose uuids are distinct and
new to the map: every result is added under its uuid and nothing is replaced. -/
theorem getOTPsLoop_all_ok (clock : Nat → Int) (es rest : List Entry) :
    ∀ (i : Nat) (m : OtpMap) (err : Option GoError),
      (∀ j (h : j < es.length), ∃ o, GetOTP es[j] (clock (i + j)) = Res.ok o) →
      (es.map Entry.Uuid).Nodup →
      (∀ e ∈ es, e.Uuid ∉ m.map Prod.fst) →
      ∃ m' : OtpMap,
        getOTPsLoop clock i (es ++ rest) m err = getOTPsLoop clock (i + es.length) rest m' err ∧
        m'.length = m.length + es.length ∧
        (∀ k, k ∈ m'.map Prod.fst ↔ k ∈ m.map Prod.fst ∨ k ∈ es.map Entry.Uuid) ∧
        (∀ p ∈ m, p ∈ m') ∧
        (∀ j (h : j < es.length),
          ∃ o, GetOTP es[j] (clock (i + j)) = Res.ok o ∧ (es[j].Uuid, o) ∈ m') ∧
        ((m.map Prod.fst).Nodup → (m'.map Prod.fst).Nodup) := by
  induction es with
  | nil =>
    intro i m err _ _ _
    refine ⟨m, by simp, by simp, by simp, fun p hp => hp, ?_, fun h => h⟩
    intro j hj
    simp at hj
  | cons e es ih =>
    intro i m err hok hnodup hdisj
    obtain ⟨o, ho⟩ := hok 0 (by simp)
    simp only [List.getElem_cons_zero, Nat.add_zero] at ho
    have hnew : e.Uuid ∉ m.map Prod.fst := hdisj e (List.mem_cons_self _ _)
    rw [List.map_cons, List.nodup_cons] at hnodup
    obtain ⟨m', hloop, hlen, hkeys, hkeep, hres, hnd⟩ := ih (i + 1) (OtpMap.assign m e.Uuid o) err
      (by
        intro j hj
        have := hok (j + 1) (by simp only [List.length_cons]; omega)
        simp only [List.getElem_cons_succ] at this
        rw [show i + 1 + j = i + (j + 1) by omega]
        exact this)
      hnodup.2
      (by
        intro e2 he2
        rw [assign_of_not_mem m e.Uuid o hnew, List.map_cons, List.mem_cons, not_or]
        constructor
        · intro heq
          have heq2 : e2.Uuid = e.Uuid := heq
          exact hnodup.1 (heq2 ▸ List.mem_map_of_mem Entry.Uuid he2)
        · exact hdisj e2 (List.mem_cons_of_mem _ he2))
    rw [assign_of_not_mem m e.Uuid o hnew] at hloop hlen hkeys hkeep hnd
    refine ⟨m', ?_, ?_, ?_, ?_, ?_, ?_⟩
    · rw [List.cons_append, getOTPsLoop, ho]
      simp only []
      rw [assign_of_not_mem m e.Uuid o hnew, hloop, List.length_cons]
      congr 1
      omega
    · rw [hlen]
      simp only [List.length_cons]
      omega
    · intro k
      rw [hkeys k]
      simp only [List.map_cons, List.mem_cons]
      tauto
    · intro p hp
      exact hkeep p (List.mem_cons_of_mem _ hp)
    · intro j hj
      cases j with
      | zero =>
        refine ⟨o, ?_, hkeep _ (List.mem_cons_self _ _)⟩
        simpa using ho
      | succ j =>
        obtain ⟨o2, ho2, hmem⟩ := hres j (by simp only [List.length_cons] at hj; omega)
        refine ⟨o2, ?_, ?_⟩
        · rw [show i + (j + 1) = i + 1 + j by omega]
          simpa using ho2
        · simpa using hmem
    · intro hm
      apply hnd
      rw [List.map_cons, List.nodup_cons]
      exact ⟨hnew, hm⟩

/-- C5 as stated fails when two successful entries share a uuid. The vault below has
three entries: two `totp` entries under the uuid `a`, on which `GetOTP` succeeds, and one
entry of the unsupported type `yubi`.  `GetOTPs` returns a non-nil error and a map with a
single result, that of the second entry, and not the two results that the claim counts. -/
theorem GetOTPs_shared_uuid_counterexample :
    GetOTP entryTotp 59 = Res.ok (OTP.totp ⟨1094287082, 6⟩) ∧
    GetOTP entryTotpSameUuid 59 = Res.ok (OTP.totp ⟨2041996554, 6⟩) ∧
    GetOTPs ⟨1, ⟨[], ⟨"", ""⟩⟩, ⟨1, [entryTotp, entryTotpSameUuid, entryYubi], []⟩⟩ (fun _ => 59) =
      Res.ok ([("a", OTP.totp ⟨2041996554, 6⟩)], some (GoError.unsupportedOtpType "yubi")) := by
  decide!

/-- C5, amended. For a vault with N entries of which exactly one has an unsupported type,
while `GetOTP` succeeds on each of the other N-1 entries and these N-1 entries have
pairwise distinct uuids, `GetOTPs` goes through all entries and returns a non-nil error
together with a map of exactly N-1 results, one for each successful entry under its
uuid.  The clock reading for entry `j` is `clock j`. -/
theorem GetOTPs_one_unsupported (vaultData : Vault) (clock : Nat → Int)
    (pre post : List Entry) (bad : Entry)
    (hentries : vaultData.Db.Entries = pre ++ bad :: post)
    (hbad : bad.Typ ≠ "totp" ∧ bad.Typ ≠ "hotp" ∧ bad.Typ ≠ "steam" ∧ bad.Typ ≠ "motp")
    (hpre : ∀ j (h : j < pre.length), ∃ o, GetOTP pre[j] (clock j) = Res.ok o)
    (hpost : ∀ j (h : j < post.length),
      ∃ o, GetOTP post[j] (clock (pre.length + 1 + j)) = Res.ok o)
    (huuid : ((pre ++ post).map Entry.Uuid).Nodup) :
    ∃ (m : OtpMap) (err : GoError),
      GetOTPs vaultData clock = Res.ok (m, some err) ∧
      m.length = vaultData.Db.Entries.length - 1 ∧
      (m.map Prod.fst).Nodup ∧
      (∀ j (h : j < pre.length),
        ∃ o, GetOTP pre[j] (clock j) = Res.ok o ∧ (pre[j].Uuid, o) ∈ m) ∧
      (∀ j (h : j < post.length),
        ∃ o, GetOTP post[j] (clock (pre.length + 1 + j)) = Res.ok o ∧ (post[j].Uuid, o) ∈ m) := by
  rw [List.map_append, List.nodup_append] at huuid
  obtain ⟨hndpre, hndpost, hdisj⟩ := huuid
  obtain ⟨m1, hloop1, hlen1, hkeys1, _, hres1, hnd1⟩ :=
    getOTPsLoop_all_ok clock pre (bad :: post) 0 [] none
      (by simpa using hpre) hndpre (by simp)
  obtain ⟨e, he⟩ := GetOTP_unsupported bad (clock pre.length) hbad
  obtain ⟨m2, hloop2, hlen2, _, hkeep2, hres2, hnd2⟩ :=
    getOTPsLoop_all_ok clock post [] (pre.length + 1) m1 (some e) hpost hndpost
      (by
        intro e2 he2 hmem
        rw [hkeys1] at hmem
        rcases hmem with hmem | hmem
        · simp at hmem
        · exact hdisj hmem (List.mem_map_of_mem Entry.Uuid he2))
  refine ⟨m2, e, ?_, ?_, ?_, ?_, ?_⟩
  · unfold GetOTPs
    rw [hentries, hloop1, Nat.zero_add, getOTPsLoop, he]
    simp only []
    have := hloop2
    rw [List.append_nil] at this
    rw [this]
    rfl
  · rw [hentries, hlen2, hlen1]
    simp only [List.length_append, List.length_cons, List.length_nil]
    omega
  · exact hnd2 (hnd1 (by simp))
  · intro j hj
    obtain ⟨o, ho, hmem⟩ := hres1 j hj
    exact ⟨o, by simpa using ho, hkeep2 _ hmem⟩
  · exact hres2

/-- C5, amended, at a concrete input: a `totp` entry, the unsupported entry and an `hotp`
entry, all read at 59 seconds. -/
theorem GetOTPs_one_unsupported_witness :
    ∃ (m : OtpMap) (err : GoError),
      GetOTPs ⟨1, ⟨[], ⟨"", ""⟩⟩, ⟨1, [entryTotp, entryYubi, entryHotp], []⟩⟩ (fun _ => 59) =
        Res.ok (m, some err) ∧
      m.length = 2 ∧ (m.map Prod.fst).Nodup := by
  obtain ⟨m, err, h1, h2, h3, _⟩ := GetOTPs_one_unsupported
    ⟨1, ⟨[], ⟨"", ""⟩⟩, ⟨1, [entryTotp, entryYubi, entryHotp], []⟩⟩ (fun _ => 59)
    [entryTotp] [entryHotp] entryYubi rfl (by decide)
    (by
      intro j hj
      have hj0 : j = 0 := by simpa using hj
      subst hj0
      exact ⟨OTP.totp ⟨1094287082, 6⟩,
        (by decide! : GetOTP entryTotp 59 = Res.ok (OTP.totp ⟨1094287082, 6⟩))⟩)
    (by
      intro j hj
      have hj0 : j = 0 := by simpa using hj
      subst hj0
      exact ⟨OTP.hotp ⟨0, 0⟩,
        (by decide! : GetOTP entryHotp 59 = Res.ok (OTP.hotp ⟨0, 0⟩))⟩)
    (by decide)
  exact ⟨m, err, h1, h2, h3⟩

/-! ## Master key recovery: `FindMasterKey` -/

/-- The loop of `FindMasterKey` passes over slots of another type, whatever their fields
hold, and over password slots that are well formed and fail authentication. -/
theorem findMasterKeyLoop_skip (pwd : String) (pre rest : List Slot)
    (hpre : ∀ s ∈ pre, s.Typ = 1 → slotAttempt pwd s = Res.ok none) :
    findMasterKeyLoop pwd (pre ++ rest) = findMasterKeyLoop pwd rest := by
  induction pre with
  | nil => rfl
  | cons s pre ih =>
    have ih2 := ih fun t ht => hpre t (List.mem_cons_of_mem _ ht)
    rw [List.cons_append, findMasterKeyLoop]
    by_cases hs : s.Typ = 1
    · rw [if_neg (by simp [hs]), hpre s (List.mem_cons_self _ _) hs]
      exact ih2
    · rw [if_pos hs]
      exact ih2

/-- What `slotAttempt` returning `none` means: every field of the slot decodes, scrypt
accepts the parameters, the nonce has 12 bytes, and `Open` reports an authentication
failure. -/
theorem slotAttempt_none_iff (pwd : String) (slot : Slot) :
    slotAttempt pwd slot = Res.ok none ↔
      ∃ salt key block nonce tag slotKey e,
        hexDecodeString slot.Salt = Res.ok salt ∧
        scryptKey (utf8Bytes pwd) salt slot.N slot.R slot.P 32 = Res.ok key ∧
        aesNewCipher key = Res.ok block ∧
        hexDecodeString slot.KeyParams.Nonce = Res.ok nonce ∧
        hexDecodeString slot.KeyParams.Tag = Res.ok tag ∧
        hexDecodeString slot.Key = Res.ok slotKey ∧
        gcmOpen block nonce (slotKey ++ tag) = Res.error e := by
  unfold slotAttempt
  constructor
  · intro h
    cases h1 : hexDecodeString slot.Salt with
    | error e => simp [h1, Res.bind] at h
    | panic x => simp [h1, Res.bind] at h
    | ok salt =>
      cases h2 : scryptKey (utf8Bytes pwd) salt slot.N slot.R slot.P 32 with
      | error e => simp [h1, h2, Res.bind] at h
      | panic x => simp [h1, h2, Res.bind] at h
      | ok key =>
        cases h3 : aesNewCipher key with
        | error e => simp [h1, h2, h3, Res.bind] at h
        | panic x => simp [h1, h2, h3, Res.bind] at h
        | ok block =>
          cases h4 : hexDecodeString slot.KeyParams.Nonce with
          | error e => simp [h1, h2, h3, h4, Res.bind] at h
          | panic x => simp [h1, h2, h3, h4, Res.bind] at h
          | ok nonce =>
            cases h5 : hexDecodeString slot.KeyParams.Tag with
            | error e => simp [h1, h2, h3, h4, h5, Res.bind] at h
            | panic x => simp [h1, h2, h3, h4, h5, Res.bind] at h
            | ok tag =>
              cases h6 : hexDecodeString slot.Key with
              | error e => simp [h1, h2, h3, h4, h5, h6, Res.bind] at h
              | panic x => simp [h1, h2, h3, h4, h5, h6, Res.bind] at h
              | ok slotKey =>
                cases h7 : gcmOpen block nonce (slotKey ++ tag) with
                | ok mk => simp [h1, h2, h3, h4, h5, h6, h7, Res.bind] at h
                | panic x => simp [h1, h2, h3, h4, h5, h6, h7, Res.bind] at h
                | error e => exact ⟨salt, key, block, nonce, tag, slotKey, e, rfl, h2, h3, rfl, rfl, rfl, h7⟩
  · rintro ⟨salt, key, block, nonce, tag, slotKey, e, h1, h2, h3, h4, h5, h6, h7⟩
    simp [h1, h2, h3, h4, h5, h6, h7, Res.bind]

/-- C7. When every slot of type 1 is well formed and fails authentication under the
password (`slotAttempt` returns `none`, see `slotAttempt_none_iff`), and also when there
is no slot of type 1 at all, `FindMasterKey` returns the error `no master key found`: no
plaintext and no decoding error. -/
theorem FindMasterKey_wrong_password (vaultData : VaultEncrypted) (pwd : String)
    (h : ∀ s ∈ vaultData.Header.Slots, s.Typ = 1 → slotAttempt pwd s = Res.ok none) :
    FindMasterKey vaultData pwd = Res.error GoError.masterKeyNotFound := by
  have hloop := findMasterKeyLoop_skip pwd vaultData.Header.Slots [] h
  rw [List.append_nil] at hloop
  unfold FindMasterKey
  rw [hloop]
  rfl

/-- With a slot that opens and only slots of other types around it, the loop of
`FindMasterKey` ends with the plaintext of that slot wherever the slot stands. -/
theorem findMasterKeyLoop_single (pwd : String) (slot : Slot) (masterKey : List Nat)
    (htype : slot.Typ = 1) (hopen : slotAttempt pwd slot = Res.ok (some masterKey))
    (slots : List Slot) (hmem : slot ∈ slots) (hothers : ∀ s ∈ slots, s = slot ∨ s.Typ ≠ 1) :
    findMasterKeyLoop pwd slots = Res.ok masterKey := by
  induction slots with
  | nil => simp at hmem
  | cons s slots ih =>
    rw [findMasterKeyLoop]
    rcases hothers s (List.mem_cons_self _ _) with hs | hs
    · subst hs
      rw [if_neg (by simp [htype]), hopen]
    · rw [if_pos hs]
      apply ih
      · rcases List.mem_cons.mp hmem with h | h
        · exact absurd (h ▸ htype) hs
        · exact h
      · intro t ht
        exact hothers t (List.mem_cons_of_mem _ ht)

/-- C6, amended. When the first slot of type 1 whose `Open` succeeds yields a plaintext
that is not empty, and every slot of type 1 before it is well formed and fails
authentication, `FindMasterKey` returns that plaintext and no error; slots of other types
are passed over whatever their fields hold and the slots after it are not looked at.  If
moreover all the other slots have a type other than 1, every reordering of the slots
gives the same master key. -/
theorem FindMasterKey_first_opening_slot (vaultData : VaultEncrypted) (pwd : String)
    (pre post : List Slot) (slot : Slot) (masterKey : List Nat)
    (hslots : vaultData.Header.Slots = pre ++ slot :: post)
    (hpre : ∀ s ∈ pre, s.Typ = 1 → slotAttempt pwd s = Res.ok none)
    (htype : slot.Typ = 1)
    (hopen : slotAttempt pwd slot = Res.ok (some masterKey))
    (hne : masterKey ≠ []) :
    FindMasterKey vaultData pwd = Res.ok masterKey ∧
      ((∀ s ∈ pre ++ post, s.Typ ≠ 1) →
        ∀ reordered : VaultEncrypted,
          reordered.Header.Slots.Perm vaultData.Header.Slots →
          FindMasterKey reordered pwd = Res.ok masterKey) := by
  have hlen : masterKey.length ≠ 0 := by
    intro h0
    exact hne (List.length_eq_zero.mp h0)
  constructor
  · unfold FindMasterKey
    rw [hslots, findMasterKeyLoop_skip pwd pre (slot :: post) hpre, findMasterKeyLoop,
      if_neg (by simp [htype]), hopen]
    simp only []
    rw [if_neg hlen]
  · intro hothers reordered hperm
    have hloop := findMasterKeyLoop_single pwd slot masterKey htype hopen reordered.Header.Slots
      (by
        rw [hperm.mem_iff, hslots]
        simp)
      (by
        intro s hs
        rw [hperm.mem_iff, hslots, List.mem_append, List.mem_cons] at hs
        rcases hs with hs | hs | hs
        · exact Or.inr (hothers s (List.mem_append_left _ hs))
        · exact Or.inl hs
        · exact Or.inr (hothers s (List.mem_append_right _ hs)))
    unfold FindMasterKey
    rw [hloop]
    simp only []
    rw [if_neg hlen]

/-- When the first slot of type 1 whose `Open` succeeds yields the empty plaintext,
`FindMasterKey` reports that no master key was found. -/
theorem FindMasterKey_empty_plaintext (vaultData : VaultEncrypted) (pwd : String)
    (pre post : List Slot) (slot : Slot)
    (hslots : vaultData.Header.Slots = pre ++ slot :: post)
    (hpre : ∀ s ∈ pre, s.Typ = 1 → slotAttempt pwd s = Res.ok none)
    (htype : slot.Typ = 1)
    (hopen : slotAttempt pwd slot = Res.ok (some [])) :
    FindMasterKey vaultData pwd = Res.error GoError.masterKeyNotFound := by
  unfold FindMasterKey
  rw [hslots, findMasterKeyLoop_skip pwd pre (slot :: post) hpre, findMasterKeyLoop,
    if_neg (by simp [htype]), hopen]
  rfl

/-- Under the password `correct horse` the slot `slotHorse` opens to its 32-byte key. -/
theorem slotAttempt_slotHorse : slotAttempt "correct horse" slotHorse = Res.ok (some horseKey) := by
  decide!

/-- Under the password `correct horse` the slot `slotStaple`, made for another password,
is well formed and fails authentication. -/
theorem slotAttempt_slotStaple : slotAttempt "correct horse" slotStaple = Res.ok none := by
  decide!

/-- Under the password `correct horse` the slot `slotEmpty` opens to the empty plaintext. -/
theorem slotAttempt_slotEmpty : slotAttempt "correct horse" slotEmpty = Res.ok (some []) := by
  decide!

/-- C6 as stated fails when the plaintext of the first opening slot is empty. In the
container below the first slot of type 1 is `slotEmpty`; its `Open` succeeds under the
password with the empty plaintext, and `FindMasterKey` returns the error
`no master key found` and not that plaintext, although the next slot would open to a
32-byte key. -/
theorem FindMasterKey_empty_plaintext_counterexample :
    slotEmpty.Typ = 1 ∧
    slotAttempt "correct horse" slotEmpty = Res.ok (some []) ∧
    FindMasterKey ⟨1, ⟨[slotBiometric, slotEmpty, slotHorse], ⟨"", ""⟩⟩, ""⟩ "correct horse" =
      Res.error GoError.masterKeyNotFound := by
  refine ⟨rfl, slotAttempt_slotEmpty, ?_⟩
  exact FindMasterKey_empty_plaintext
    ⟨1, ⟨[slotBiometric, slotEmpty, slotHorse], ⟨"", ""⟩⟩, ""⟩ "correct horse"
    [slotBiometric] [slotHorse] slotEmpty rfl
    (by
      intro s hs ht
      simp only [List.mem_singleton] at hs
      subst hs
      exact absurd ht (by decide))
    rfl slotAttempt_slotEmpty

/-- C6, amended, at concrete inputs. In the first container a slot of another type and a
password slot that fails authentication stand before the opening slot; in the second the
opening slot is moved in front of the only other slot, which has another type. -/
theorem FindMasterKey_first_opening_slot_witness :
    FindMasterKey ⟨1, ⟨[slotBiometric, slotStaple, slotHorse, slotEmpty], ⟨"", ""⟩⟩, ""⟩
      "correct horse" = Res.ok horseKey ∧
    FindMasterKey ⟨1, ⟨[slotHorse, slotBiometric], ⟨"", ""⟩⟩, ""⟩ "correct horse" =
      Res.ok horseKey :=
  ⟨(FindMasterKey_first_opening_slot
      ⟨1, ⟨[slotBiometric, slotStaple, slotHorse, slotEmpty], ⟨"", ""⟩⟩, ""⟩ "correct horse"
      [slotBiometric, slotStaple] [slotEmpty] slotHorse horseKey rfl
      (by
        intro s hs ht
        simp only [List.mem_cons, List.mem_singleton, List.not_mem_nil, or_false] at hs
        rcases hs with rfl | rfl
        · exact absurd ht (by decide)
        · exact slotAttempt_slotStaple)
      rfl slotAttempt_slotHorse (by decide)).1,
   (FindMasterKey_first_opening_slot
      ⟨1, ⟨[slotBiometric, slotHorse], ⟨"", ""⟩⟩, ""⟩ "correct horse"
      [slotBiometric] [] slotHorse horseKey rfl
      (by
        intro s hs ht
        simp only [List.mem_singleton] at hs
        subst hs
        exact absurd ht (by decide))
      rfl slotAttempt_slotHorse (by decide)).2
      (by
        intro s hs
        simp only [List.append_nil, List.mem_singleton] at hs
        subst hs
        decide)
      ⟨1, ⟨[slotHorse, slotBiometric], ⟨"", ""⟩⟩, ""⟩
      (List.Perm.swap slotBiometric slotHorse [])⟩

/-- C7, at a concrete input: a slot of another type and a password slot made for another
password. -/
theorem FindMasterKey_wrong_password_witness :
    FindMasterKey ⟨1, ⟨[slotBiometric, slotStaple], ⟨"", ""⟩⟩, ""⟩ "correct horse" =
      Res.error GoError.masterKeyNotFound :=
  FindMasterKey_wrong_password ⟨1, ⟨[slotBiometric, slotStaple], ⟨"", ""⟩⟩, ""⟩ "correct horse"
    (by
      intro s hs ht
      simp only [List.mem_cons, List.mem_singleton, List.not_mem_nil, or_false] at hs
      rcases hs with rfl | rfl
      · exact absurd ht (by decide)
      · exact slotAttempt_slotStaple)

end Aegis
